import Mathlib

/-!
Verification of the CloudWatch response-parsing core
(`pkg/tsdb/cloudwatch/response_parser.go`).

Shallow embedding conventions:
* Go `time.Time` values are modelled as `Int` unix seconds (CloudWatch
  timestamps are whole seconds; the code only uses `Add` of a whole number
  of seconds, `Before`, and `Unix()*1000`).
* Go `*float64` sample values are modelled as `Option Int`: `none` models a
  nil pointer, `some v` a pointer to a value.  The parser never performs
  arithmetic on sample values, it only moves them around and dereferences
  them, so the numeric payload type is irrelevant to every claim.
* Go maps are modelled as association lists whose iteration order is the
  insertion order.  Go map iteration order is unspecified; the association
  list fixes one deterministic order.  Lookups and updates have Go map
  semantics (`aset` overwrites an existing key in place, else appends).
* Fallible code is modelled with `Except`.  Errors built by the Go code
  with `fmt.Errorf` are modelled by the constructor
  `ParseError.arithmeticError`; a Go runtime panic (nil-pointer
  dereference, out-of-range index or slice) is modelled by
  `ParseError.goPanic`.  A panic is a crash, not an explicit error value;
  the distinction matters for the error-handling claims.
-/

namespace CW

/-! ### Association lists standing in for Go maps -/

/-- Lookup in an association list: first binding of the key. -/
def alookup {α : Type} (k : String) : List (String × α) → Option α
  | [] => none
  | (k', v) :: t => if k = k' then some v else alookup k t

/-- Go map assignment `m[k] = v`: overwrite the binding of `k` in place if
present, otherwise append a new binding. -/
def aset {α : Type} (k : String) (v : α) : List (String × α) → List (String × α)
  | [] => [(k, v)]
  | (k', v') :: t => if k = k' then (k, v) :: t else (k', v') :: aset k v t

/-- The keys of an association list, in order. -/
def keysOf {α : Type} (m : List (String × α)) : List String :=
  m.map Prod.fst

/-! ### Data model (from the Go source) -/

/-- A diagnostic message attached to a batch or to a result fragment
(`cloudwatch.MessageData`); `Code` and `Value` are the dereferenced
string fields. -/
structure Message where
  Code : String
  Value : String
  deriving DecidableEq, Repr

/-- One result fragment (`cloudwatch.MetricDataResult`): parallel
timestamp/value sequences plus status and diagnostics, keyed by the
opaque query `Id` and the sub-series `Label`. -/
structure MetricDataResult where
  Id : String
  Label : String
  Timestamps : List Int
  Values : List (Option Int)
  StatusCode : String
  Messages : List Message
  deriving DecidableEq, Repr

/-- One raw result batch (`cloudwatch.GetMetricDataOutput`): batch-level
messages plus result fragments. -/
structure GetMetricDataOutput where
  Messages : List Message
  MetricDataResults : List MetricDataResult
  deriving DecidableEq, Repr

/-- The submitted query (`cloudWatchQuery`).  The struct itself and its
classification methods are not part of the excerpt's source files, only
their uses are.

Modelled from the spec: the four classification flags
(`isMathExpression`, `isUserDefinedSearchExpression`,
`isInferredSearchExpression`, `isMultiValuedDimensionExpression`) are,
per the spec, pure functions of `expression`/`dimensions` whose defining
code is missing from the excerpt; they are therefore carried here as
fields of the query record, which is sound for every claim because the
parser only ever branches on their boolean outcome. -/
structure CloudWatchQuery where
  RefId : String
  Id : String
  Region : String
  Namespace : String
  MetricName : String
  Stats : String
  Period : Int
  Alias : String
  Expression : String
  UsedExpression : String
  Dimensions : List (String × List String)
  RequestExceededMaxLimit : Bool
  isMathExpression : Bool
  isUserDefinedSearchExpression : Bool
  isInferredSearchExpression : Bool
  isMultiValuedDimensionExpression : Bool
  deriving DecidableEq, Repr

/-- An output data frame (`data.Frame`): the computed display name, the
two parallel field columns (absent for the synthesized empty frames of
the zero-data fan-out case), and the resolved dimension tags stored in
the frame metadata.  Timestamps in the field column are milliseconds. -/
structure Frame where
  Name : String
  fields : Option (List Int × List (Option Int))
  tags : List (String × String)
  deriving DecidableEq, Repr

/-- The per-query response record (`cloudwatchResponse`). -/
structure CloudwatchResponse where
  DataFrames : List Frame
  Period : Int
  Expression : String
  RefId : String
  Id : String
  RequestExceededMaxLimit : Bool
  PartialData : Bool
  deriving DecidableEq, Repr

/-- Failure outcomes of the parsing pipeline.
`arithmeticError refId msgValue` models the explicit error value built by
`fmt.Errorf("ArithmeticError in query %q: %s", query.RefId, *message.Value)`;
it is the only explicit error value the parser constructs.
`goPanic` models a Go runtime panic (nil-pointer dereference,
out-of-range index or slice): a crash, not a returned error value. -/
inductive ParseError where
  | arithmeticError (refId : String) (msgValue : String)
  | goPanic
  deriving DecidableEq, Repr

/-- Whether a failure outcome is an explicit error value (built with
`fmt.Errorf`) as opposed to a runtime panic. -/
def ParseError.isExplicitError : ParseError → Bool
  | .arithmeticError _ _ => true
  | .goPanic => false

/-! ### String helpers (models of the Go `strings` functions used) -/

/-- Substring containment on character lists: `strings.Contains hay needle`.
The empty needle is contained in everything, as in Go. -/
def containsSub (hay needle : List Char) : Bool :=
  match hay with
  | [] => needle.isEmpty
  | _ :: t => needle.isPrefixOf hay || containsSub t needle

/-- `strings.Contains` on strings.  Go works on bytes; this model works on
characters, which agrees on the ASCII strings the parser handles. -/
def strContains (hay needle : String) : Bool :=
  containsSub hay.data needle.data

/-- `strings.LastIndex s ","` restricted to a single character: the index
of the last occurrence, or `-1` when absent (character index; equal to
Go's byte index on ASCII strings). -/
def lastIndexOfChar (c : Char) : List Char → Int
  | [] => -1
  | x :: xs =>
    let r := lastIndexOfChar c xs
    if 0 ≤ r then r + 1 else if x = c then 0 else -1

/-- `strings.Trim s cutset`: remove all leading and trailing characters
that occur in `cutset`. -/
def trimCutset (cutset : List Char) (s : List Char) : List Char :=
  ((s.dropWhile (cutset.contains ·)).reverse.dropWhile (cutset.contains ·)).reverse

/-- `strings.TrimSpace` on a character list: remove leading and trailing
whitespace (Go trims Unicode space; ASCII whitespace suffices for the
token names this model handles). -/
def trimSpaceList (s : List Char) : List Char :=
  ((s.dropWhile Char.isWhitespace).reverse.dropWhile Char.isWhitespace).reverse

/-- Scan for the earliest closing double brace; returns the characters
before it (reversed accumulator unwound) and the characters after it.
This is how the lazy `.+?` of the alias regular expression finds the end
of a placeholder. -/
def splitAtCloseBrace (acc : List Char) : List Char → Option (List Char × List Char)
  | [] => none
  | '}' :: '}' :: rest => some (acc.reverse, rest)
  | c :: rest => splitAtCloseBrace (c :: acc) rest

/-- Modelled from the spec: the alias placeholder substitution performed by
`aliasFormat.ReplaceAllFunc` (the `aliasFormat` regular expression is
defined outside the excerpt's source files).  Per the spec, every
double-brace-delimited `token` occurrence is replaced — token being the
trimmed text between the double braces — by the context value for that
token name if present, else the placeholder text is left unchanged.
Fuel-based recursion; the fuel is the input length, which is ample since
every step consumes at least one character. -/
def replaceTokensGo (ctx : List (String × String)) : Nat → List Char → List Char
  | 0, cs => cs
  | _ + 1, [] => []
  | fuel + 1, '{' :: '{' :: rest =>
    match splitAtCloseBrace [] rest with
    | none => '{' :: '{' :: rest
    | some (tok, after) =>
      let name := String.mk (trimSpaceList tok)
      let replacement :=
        match alookup name ctx with
        | some v => v.data
        | none => '{' :: '{' :: (tok ++ '}' :: '}' :: [])
      replacement ++ replaceTokensGo ctx fuel after
  | fuel + 1, c :: rest => c :: replaceTokensGo ctx fuel rest

/-- Alias template evaluation over a context mapping. -/
def replaceTokens (ctx : List (String × String)) (s : String) : String :=
  String.mk (replaceTokensGo ctx s.data.length s.data)

/-! ### `formatAlias` -/

/-- The stat/period pair used by `formatAlias`: for a user-defined search
expression both are re-derived by slicing the raw expression string at its
last two commas and trimming; otherwise the passed stat and the query's
own period.  `none` models the Go panic when the expression has no comma
(`strings.LastIndex` yields `-1` and the slice `query.Expression[:pIndex]`
is out of range). -/
def resolvedStatPeriod (query : CloudWatchQuery) (stat : String) :
    Option (String × String) :=
  if query.isUserDefinedSearchExpression then
    let e := query.Expression.data
    let pIndex := lastIndexOfChar ',' e
    if pIndex < 0 then
      none
    else
      let period := String.mk (trimCutset [' ', ')'] (e.drop (pIndex.toNat + 1)))
      let ePrefix := e.take pIndex.toNat
      let sIndex := lastIndexOfChar ',' ePrefix
      let stat := String.mk (trimCutset [' ', '\''] (ePrefix.drop (sIndex + 1).toNat))
      some (stat, period)
  else
    some (stat, toString query.Period)

/-- The context mapping the alias template is evaluated against: region,
namespace, metric, stat, period, the label when non-empty, and every
resolved dimension tag (dimension tags can shadow the builtins, as the Go
map writes do). -/
def aliasData (query : CloudWatchQuery) (stat period label : String)
    (dimensions : List (String × String)) : List (String × String) :=
  let base : List (String × String) :=
    [("region", query.Region), ("namespace", query.Namespace),
     ("metric", query.MetricName), ("stat", stat), ("period", period)]
  let base := if label.length ≠ 0 then aset "label" label base else base
  dimensions.foldl (fun d p => aset p.1 p.2 d) base

/-- The `formatAlias` function of the source.  Returns `none` exactly when
the Go code panics (see `resolvedStatPeriod`). -/
def formatAlias (query : CloudWatchQuery) (stat : String)
    (dimensions : List (String × String)) (label : String) : Option String :=
  match resolvedStatPeriod query stat with
  | none => none
  | some (stat, period) =>
    if query.Alias.length = 0 ∧ query.isMathExpression then
      some query.Id
    else if query.Alias.length = 0 ∧ query.isInferredSearchExpression ∧
        ¬query.isMultiValuedDimensionExpression then
      some label
    else
      let result := replaceTokens (aliasData query stat period label dimensions) query.Alias
      if result = "" then some (query.MetricName ++ "_" ++ stat) else some result

/-! ### `parseGetMetricDataTimeSeries` -/

/-- The first fragment-level `"ArithmeticError"` message, turned into the
error value the source builds with `fmt.Errorf`. -/
def firstArithmeticError (refId : String) : List Message → Option ParseError
  | [] => none
  | msg :: rest =>
    if msg.Code = "ArithmeticError" then some (.arithmeticError refId msg.Value)
    else firstArithmeticError refId rest

/-- One step of the dominant-dimension fold:
`if len(values) > series { series = len(values); multiValuedDimension = key }`. -/
def dominantStep (acc : Nat × String) (p : String × List String) : Nat × String :=
  if p.2.length > acc.1 then (p.2.length, p.1) else acc

/-- Dominant-dimension selection of the zero-data fan-out case: the fold
`if len(values) > series` over the dimensions map, keeping the count and
the key.  First strictly-greater entry wins, mirroring the source. -/
def dominantDimension (dims : List (String × List String)) : Nat × String :=
  dims.foldl dominantStep (0, "")

/-- One step of the fan-out tag fold: every dimension other than the
dominant one, with at least one candidate, is tagged with its first
candidate. -/
def fanOutTagStep (mvd : String) (tags : List (String × String))
    (p : String × List String) : List (String × String) :=
  if p.1 ≠ mvd ∧ p.2.length > 0 then aset p.1 (p.2.headD "") tags else tags

/-- The tag map of one synthesized empty frame of the fan-out case: the
dominant dimension bound to the candidate `value`, then every other
dimension with a non-empty candidate list bound to its first candidate. -/
def fanOutTags (dims : List (String × List String)) (mvd : String) (value : String) :
    List (String × String) :=
  dims.foldl (fanOutTagStep mvd) [(mvd, value)]

/-- The loop body of the fan-out case: one empty frame (no fields) per
candidate value of the dominant dimension.  `formatAlias` returning
`none` is a Go panic. -/
def fanOutLoop (query : CloudWatchQuery) (label : String) (mvd : String) :
    List String → Except ParseError (List Frame)
  | [] => .ok []
  | value :: rest =>
    let tags := fanOutTags query.Dimensions mvd value
    match formatAlias query query.Stats tags label with
    | none => .error .goPanic
    | some nm =>
      match fanOutLoop query label mvd rest with
      | .error e => .error e
      | .ok fs => .ok ({ Name := nm, fields := none, tags := tags } :: fs)

/-- The zero-data multi-valued-dimension fan-out block of the source. -/
def fanOutFrames (query : CloudWatchQuery) (label : String) :
    Except ParseError (List Frame) :=
  let mvd := (dominantDimension query.Dimensions).2
  fanOutLoop query label mvd ((alookup mvd query.Dimensions).getD [])

/-- Tag resolution for one dimension in the normal (non-fan-out) case:
a single non-wildcard candidate is tagged unconditionally; otherwise each
candidate is matched against the label (equality or wildcard tags the
label itself, substring containment tags the candidate; last match
wins). -/
def resolveDim (label dim : String) (values : List String)
    (tags : List (String × String)) : List (String × String) :=
  if values.length = 1 ∧ values.headD "" ≠ "*" then
    aset dim (values.headD "") tags
  else
    values.foldl
      (fun tg value =>
        if value = label ∨ value = "*" then aset dim label tg
        else if strContains label value then aset dim value tg
        else tg)
      tags

/-- Tag reconstruction of the normal case: dimensions visited in sorted
dimension-name order, values looked up in the query's dimension map. -/
def buildTags (query : CloudWatchQuery) (label : String) : List (String × String) :=
  (List.insertionSort (· ≤ ·) (keysOf query.Dimensions)).foldl
    (fun tags dim => resolveDim label dim ((alookup dim query.Dimensions).getD []) tags)
    []

/-- The gap-filling loop over the parallel timestamp/value sequences.
`prev` is the previous timestamp (`none` on the first iteration).  Output
timestamps are in milliseconds (`t.Unix()*1000`).  Indexing
`Values[j]` out of range is a Go panic; so is the nil-pointer dereference
`*val` the source performs in a debug-log argument. -/
def gapFillLoop (period : Int) : Option Int → List Int → List (Option Int) →
    Except ParseError (List Int × List (Option Int))
  | _, [], _ => .ok ([], [])
  | prev, t :: ts, vals =>
    match vals with
    | [] => .error .goPanic
    | val :: vrest =>
      match val with
      | none => .error .goPanic
      | some v =>
        match gapFillLoop period (some t) ts vrest with
        | .error e => .error e
        | .ok (tsOut, vOut) =>
          match prev with
          | some p =>
            if p + period < t then
              .ok ((p + period) * 1000 :: t * 1000 :: tsOut, none :: some v :: vOut)
            else
              .ok (t * 1000 :: tsOut, some v :: vOut)
          | none => .ok (t * 1000 :: tsOut, some v :: vOut)

/-- Gap-filling of one merged series, as in the source loop. -/
def gapFill (period : Int) (timestamps : List Int) (values : List (Option Int)) :
    Except ParseError (List Int × List (Option Int)) :=
  gapFillLoop period none timestamps values

/-- Processing of one label's merged result into frames: either the
zero-data fan-out or the normal tags-plus-gap-filled-fields frame. -/
def labelFrames (query : CloudWatchQuery) (label : String) (r : MetricDataResult) :
    Except ParseError (List Frame) :=
  if r.Values.length = 0 ∧ query.isMultiValuedDimensionExpression then
    fanOutFrames query label
  else
    let tags := buildTags query label
    match gapFill query.Period r.Timestamps r.Values with
    | .error e => .error e
    | .ok (timestamps, points) =>
      match formatAlias query query.Stats tags label with
      | none => .error .goPanic
      | some nm => .ok [{ Name := nm, fields := some (timestamps, points), tags := tags }]

/-- The per-label loop of `parseGetMetricDataTimeSeries`: set the sticky
partial-data flag, abort on the first `"ArithmeticError"` message, and
collect the label's frames. -/
def formatLoop (m : List (String × MetricDataResult)) (query : CloudWatchQuery) :
    List String → Bool → Except ParseError (List Frame × Bool)
  | [], pd => .ok ([], pd)
  | label :: rest, pd =>
    match alookup label m with
    | none => .error .goPanic
    | some r =>
      let pd' := pd || !(r.StatusCode == "Complete")
      match firstArithmeticError query.RefId r.Messages with
      | some e => .error e
      | none =>
        match labelFrames query label r with
        | .error e => .error e
        | .ok fs =>
          match formatLoop m query rest pd' with
          | .error e => .error e
          | .ok (fsRest, pdOut) => .ok (fs ++ fsRest, pdOut)

/-- The labels of the merged results, sorted lexicographically
(`sort.Strings`). -/
def metricDataResultLabels (m : List (String × MetricDataResult)) : List String :=
  List.insertionSort (· ≤ ·) (keysOf m)

/-- `parseGetMetricDataTimeSeries`: format one query's merged results into
frames plus the partial-data flag, visiting labels in sorted order. -/
def parseGetMetricDataTimeSeries (m : List (String × MetricDataResult))
    (query : CloudWatchQuery) : Except ParseError (List Frame × Bool) :=
  formatLoop m query (metricDataResultLabels m) false

/-! ### `parseResponse`: merge phase and response construction -/

/-- The merged-results map: query id to (label to coalesced fragment). -/
abbrev Mdr := List (String × List (String × MetricDataResult))

/-- The queries map passed to `parseResponse` (Go
`map[string]*cloudWatchQuery`; pointer mutation is modelled by updating
the map entry). -/
abbrev Queries := List (String × CloudWatchQuery)

/-- The continuation-append of the source's third branch: the new
fragment's timestamps and values are appended to the existing entry and
the status is overwritten by a `"Complete"` status of the new
fragment. -/
def appendFrag (existing r : MetricDataResult) : MetricDataResult :=
  { existing with
    Timestamps := existing.Timestamps ++ r.Timestamps
    Values := existing.Values ++ r.Values
    StatusCode := if r.StatusCode = "Complete" then r.StatusCode
                  else existing.StatusCode }

/-- Coalescing one fragment into the merged map, exactly as the source's
three-way branch: unseen id inserts a fresh inner map; unseen label under
a seen id inserts the fragment; otherwise the fragment is appended to the
existing entry (`appendFrag`). -/
def mdrInsert (mdr : Mdr) (r : MetricDataResult) : Mdr :=
  match alookup r.Id mdr with
  | none => aset r.Id [(r.Label, r)] mdr
  | some inner =>
    match alookup r.Label inner with
    | none => aset r.Id (aset r.Label r inner) mdr
    | some existing => aset r.Id (aset r.Label (appendFrag existing r) inner) mdr

/-- The inner fragment loop of one batch: insert each fragment into the
merged map and assign the batch's limit-exceeded flag to that fragment's
query (`queries[*r.Id].RequestExceededMaxLimit = requestExceededMaxLimit`).
A fragment whose id has no entry in `queries` makes the Go code assign a
field through a nil map entry: a runtime panic. -/
def processBatchResults (exceeded : Bool) :
    List MetricDataResult → Mdr × Queries → Except ParseError (Mdr × Queries)
  | [], st => .ok st
  | r :: rest, st =>
    let mdr' := mdrInsert st.1 r
    match alookup r.Id st.2 with
    | none => .error .goPanic
    | some q =>
      processBatchResults exceeded rest
        (mdr', aset r.Id { q with RequestExceededMaxLimit := exceeded } st.2)

/-- Whether a batch carries a batch-level `"MaxMetricsExceeded"` message. -/
def batchExceededMaxLimit (mdo : GetMetricDataOutput) : Bool :=
  mdo.Messages.any (fun msg => msg.Code = "MaxMetricsExceeded")

/-- The outer batch loop of `parseResponse`: scan the batch messages for
`"MaxMetricsExceeded"`, then process the batch's fragments. -/
def mergePhase : List GetMetricDataOutput → Mdr × Queries →
    Except ParseError (Mdr × Queries)
  | [], st => .ok st
  | mdo :: rest, st =>
    match processBatchResults (batchExceededMaxLimit mdo) mdo.MetricDataResults st with
    | .error e => .error e
    | .ok st' => mergePhase rest st'

/-- The response-construction loop of `parseResponse`: per merged query id,
format the merged results and build the response record, aborting on the
first formatting error.  A missing queries entry is a nil-pointer
dereference in Go (the merged map is iterated in insertion order, a
deterministic stand-in for Go's unspecified map order). -/
def buildResponses (queries : Queries) :
    List (String × List (String × MetricDataResult)) →
    Except ParseError (List CloudwatchResponse)
  | [] => .ok []
  | (id, lr) :: rest =>
    match alookup id queries with
    | none => .error .goPanic
    | some q =>
      match parseGetMetricDataTimeSeries lr q with
      | .error e => .error e
      | .ok (frames, pd) =>
        match buildResponses queries rest with
        | .error e => .error e
        | .ok rs =>
          .ok ({ DataFrames := frames
                 Period := q.Period
                 Expression := q.UsedExpression
                 RefId := q.RefId
                 Id := q.Id
                 RequestExceededMaxLimit := q.RequestExceededMaxLimit
                 PartialData := pd } :: rs)

/-- `parseResponse`: merge all batches, then build one response record per
merged query id. -/
def parseResponse (metricDataOutputs : List GetMetricDataOutput)
    (queries : Queries) : Except ParseError (List CloudwatchResponse) :=
  match mergePhase metricDataOutputs ([], queries) with
  | .error e => .error e
  | .ok (mdr, queries') => buildResponses queries' mdr

/-- All fragments of a batch list, in arrival order (batch order, then
in-batch order). -/
def fragmentsOf (mdos : List GetMetricDataOutput) : List MetricDataResult :=
  mdos.flatMap (fun mdo => mdo.MetricDataResults)

/-- The merged map determined by a fragment list alone (the merge phase
with the query-flag side channel stripped); used to state merge
properties. -/
def mdrOf (frags : List MetricDataResult) : Mdr :=
  frags.foldl mdrInsert []

/-! ### Association-list lemmas -/

theorem alookup_aset_self {α : Type} (k : String) (v : α) (m : List (String × α)) :
    alookup k (aset k v m) = some v := by
  induction m with
  | nil => simp [aset, alookup]
  | cons p t ih =>
    by_cases h : k = p.1
    · simp [aset, h, alookup]
    · simp [aset, h, alookup, ih]

theorem alookup_aset_ne {α : Type} {k k' : String} (v : α) (m : List (String × α))
    (h : k' ≠ k) : alookup k' (aset k v m) = alookup k' m := by
  induction m with
  | nil => simp [aset, alookup, h]
  | cons p t ih =>
    by_cases hk : k = p.1
    · subst hk
      simp [aset, alookup, h, ih]
    · by_cases hk' : k' = p.1
      · simp [aset, alookup, hk, hk']
      · simp [aset, alookup, hk, hk', ih]

theorem keysOf_nil {α : Type} : keysOf ([] : List (String × α)) = [] := rfl

theorem keysOf_cons {α : Type} (p : String × α) (t : List (String × α)) :
    keysOf (p :: t) = p.1 :: keysOf t := rfl

theorem mem_keysOf_of_mem {α : Type} {p : String × α} {m : List (String × α)}
    (h : p ∈ m) : p.1 ∈ keysOf m :=
  List.mem_map_of_mem Prod.fst h

theorem mem_keysOf_aset {α : Type} {k' k : String} (v : α) (m : List (String × α)) :
    k' ∈ keysOf (aset k v m) ↔ k' = k ∨ k' ∈ keysOf m := by
  induction m with
  | nil => simp [aset, keysOf]
  | cons p t ih =>
    obtain ⟨pk, pv⟩ := p
    by_cases h : k = pk
    · subst h
      simp [aset, keysOf_cons]
    · simp [aset, h, keysOf_cons, List.mem_cons, ih]
      tauto

theorem keysOf_aset_of_mem {α : Type} {k : String} (v : α) {m : List (String × α)}
    (h : k ∈ keysOf m) : keysOf (aset k v m) = keysOf m := by
  induction m with
  | nil => simp [keysOf] at h
  | cons p t ih =>
    obtain ⟨pk, pv⟩ := p
    by_cases hk : k = pk
    · subst hk
      simp [aset, keysOf_cons]
    · have h' : k ∈ keysOf t := by
        rcases (List.mem_cons).1 h with h | h
        · exact absurd h hk
        · exact h
      simp [aset, hk, keysOf_cons, ih h']

theorem nodup_keysOf_aset {α : Type} {k : String} (v : α) {m : List (String × α)}
    (h : (keysOf m).Nodup) : (keysOf (aset k v m)).Nodup := by
  induction m with
  | nil => simp [aset, keysOf]
  | cons p t ih =>
    obtain ⟨pk, pv⟩ := p
    rw [keysOf_cons, List.nodup_cons] at h
    by_cases hk : k = pk
    · subst hk
      simp [aset, keysOf_cons, List.nodup_cons]
      exact h
    · simp only [aset, if_neg hk, keysOf_cons, List.nodup_cons]
      refine ⟨fun hh => ?_, ih h.2⟩
      rcases (mem_keysOf_aset v t).1 hh with hh | hh
      · exact hk hh.symm
      · exact h.1 hh

theorem alookup_eq_none_iff {α : Type} (k : String) (m : List (String × α)) :
    alookup k m = none ↔ k ∉ keysOf m := by
  induction m with
  | nil => simp [alookup, keysOf]
  | cons p t ih =>
    obtain ⟨pk, pv⟩ := p
    by_cases h : k = pk
    · simp [alookup, h, keysOf_cons]
    · simp [alookup, h, keysOf_cons, List.mem_cons, ih]

theorem mem_of_alookup_eq_some {α : Type} {k : String} {v : α} {m : List (String × α)}
    (h : alookup k m = some v) : (k, v) ∈ m := by
  induction m with
  | nil => simp [alookup] at h
  | cons p t ih =>
    obtain ⟨pk, pv⟩ := p
    by_cases hk : k = pk
    · subst hk
      simp [alookup] at h
      subst h
      exact List.mem_cons_self _ _
    · simp [alookup, hk] at h
      exact List.mem_cons_of_mem _ (ih h)

theorem alookup_isSome_iff {α : Type} (k : String) (m : List (String × α)) :
    (alookup k m).isSome ↔ k ∈ keysOf m := by
  rcases h : alookup k m with _ | v
  · simp [(alookup_eq_none_iff k m).1 h]
  · simp only [Option.isSome_some, true_iff]
    exact mem_keysOf_of_mem (mem_of_alookup_eq_some h)

theorem alookup_eq_some_of_mem {α : Type} {k : String} {v : α} {m : List (String × α)}
    (hnd : (keysOf m).Nodup) (h : (k, v) ∈ m) : alookup k m = some v := by
  induction m with
  | nil => simp at h
  | cons p t ih =>
    obtain ⟨pk, pv⟩ := p
    rw [keysOf_cons, List.nodup_cons] at hnd
    rcases List.mem_cons.1 h with h | h
    · cases h
      simp [alookup]
    · have hk : k ≠ pk := by
        intro hk
        have hx : k ∈ keysOf t := mem_keysOf_of_mem h
        rw [hk] at hx
        exact hnd.1 hx
      simp only [alookup, if_neg hk]
      exact ih hnd.2 h

/-! ### Claim C6: gap-filling -/

/-- Claim-side reading of gap-filling, following the claim's words: walk
the merged timestamp/value pairs in order; before emitting pair `j`
(`j > 0`), compute `expected` = previous timestamp + period; exactly one
synthetic null-valued point is inserted at `expected` if and only if
`expected` is strictly earlier than pair `j`'s timestamp.  Output
timestamps are in milliseconds. -/
def gapFillClaim (period : Int) : Option Int → List (Int × Int) → List (Int × Option Int)
  | _, [] => []
  | prev, (t, v) :: rest =>
    (match prev with
     | some p => if p + period < t then [((p + period) * 1000, (none : Option Int))] else []
     | none => []) ++ ((t * 1000, some v) :: gapFillClaim period (some t) rest)

theorem gapFillLoop_eq_claim (period : Int) :
    ∀ (ts : List Int) (vs : List Int) (prev : Option Int), vs.length = ts.length →
      gapFillLoop period prev ts (vs.map some) =
        .ok ((gapFillClaim period prev (ts.zip vs)).map Prod.fst,
             (gapFillClaim period prev (ts.zip vs)).map Prod.snd)
  | [], vs, prev, h => by
    have hvs : vs = [] := List.eq_nil_of_length_eq_zero (by simpa using h)
    subst hvs
    simp [gapFillLoop, gapFillClaim]
  | _ :: _, [], _, h => by simp at h
  | t :: ts, v :: vs, prev, h => by
    have hlen : vs.length = ts.length := by simpa using h
    have ih := gapFillLoop_eq_claim period ts vs (some t) hlen
    cases prev with
    | none =>
      simp only [List.map_cons, gapFillLoop, ih, List.zip_cons_cons, gapFillClaim]
      simp [List.zip]
    | some p =>
      by_cases hlt : p + period < t
      · simp only [List.map_cons, gapFillLoop, ih, List.zip_cons_cons, gapFillClaim]
        simp [hlt, List.zip]
      · simp only [List.map_cons, gapFillLoop, ih, List.zip_cons_cons, gapFillClaim]
        simp [hlt, List.zip]

theorem gapFillClaim_gapless (period : Int) :
    ∀ (pairs : List (Int × Int)) (prev : Option Int),
      List.Chain' (fun a b : Int × Int => b.1 = a.1 + period) pairs →
      (∀ p : Int, prev = some p → ∀ hd ∈ pairs.head?, hd.1 = p + period) →
      gapFillClaim period prev pairs = pairs.map (fun q => (q.1 * 1000, some q.2))
  | [], _, _, _ => by simp [gapFillClaim]
  | (t, v) :: rest, prev, hchain, hprev => by
    have hrest := (List.chain'_cons'.1 hchain).2
    have hhd := (List.chain'_cons'.1 hchain).1
    have ihp : ∀ p : Int, some t = some p → ∀ hd ∈ rest.head?, hd.1 = p + period := by
      intro p hp hd hmem
      cases hp
      exact hhd hd hmem
    have ih := gapFillClaim_gapless period rest (some t) hrest ihp
    cases prev with
    | none => simp [gapFillClaim, ih]
    | some p =>
      have ht : t = p + period := by
        have := hprev p rfl (t, v) (by simp)
        simpa using this
      have hnlt : ¬(p + period < t) := by omega
      simp [gapFillClaim, hnlt, ih]

/-- Claim C6 (confirmed).  For every merged series, gap-filling emits each
input pair in order and inserts exactly one synthetic null-valued point at
the previous timestamp plus the period before pair `j` (for every
`j > 0`) if and only if that expected timestamp is strictly earlier than
pair `j`'s timestamp: the source loop equals the claim-side description
(first conjunct); when every consecutive pair differs by exactly the
period, no synthetic point is inserted (second conjunct); timestamps 0 and
120 with period 60 produce exactly one synthetic null point at 60 seconds
(third conjunct). -/
theorem c6_gap_filling :
    (∀ (period : Int) (ts vs : List Int), vs.length = ts.length →
        gapFill period ts (vs.map some) =
          .ok ((gapFillClaim period none (ts.zip vs)).map Prod.fst,
               (gapFillClaim period none (ts.zip vs)).map Prod.snd)) ∧
    (∀ (period : Int) (pairs : List (Int × Int)),
        List.Chain' (fun a b => b.1 = a.1 + period) pairs →
        gapFillClaim period none pairs = pairs.map (fun q => (q.1 * 1000, some q.2))) ∧
    gapFill 60 [0, 120] [some 1, some 2] =
      .ok ([0, 60000, 120000], [some 1, none, some 2]) := by
  refine ⟨fun period ts vs h => gapFillLoop_eq_claim period ts vs none h,
          fun period pairs hc => gapFillClaim_gapless period pairs none hc (by simp), ?_⟩
  rfl

/-- Witness for C6: the general conjuncts applied at concrete inputs. -/
theorem c6_gap_filling_witness :
    gapFill 60 [0, 120] (([1, 2] : List Int).map some) =
      .ok ([0, 60000, 120000], [some 1, none, some 2]) ∧
    gapFillClaim 60 none [(0, 1), (60, 2)] = [(0, some 1), (60000, some 2)] := by
  constructor
  · exact (c6_gap_filling.1 60 [0, 120] [1, 2] rfl).trans (by rfl)
  · exact (c6_gap_filling.2.1 60 [(0, 1), (60, 2)]
      (List.chain'_cons.2 ⟨by decide, List.chain'_singleton _⟩)).trans (by rfl)

/-! ### Claim C10: a null sample value makes the formatter panic -/

/-- A query fixture with every classification flag off and a plain alias. -/
def plainQuery : CloudWatchQuery :=
  { RefId := "A", Id := "q1", Region := "us-east-1", Namespace := "ns",
    MetricName := "test", Stats := "stat1", Period := 60, Alias := "x",
    Expression := "", UsedExpression := "", Dimensions := [],
    RequestExceededMaxLimit := false, isMathExpression := false,
    isUserDefinedSearchExpression := false, isInferredSearchExpression := false,
    isMultiValuedDimensionExpression := false }

/-- Claim C10 (code bug).  The claim says a merged result whose values
contain a null entry is formatted without fault, the null passed through
to the frame's nullable value column.  The code instead dereferences the
nil value pointer in a debug-log argument (`"value", *val`) and panics:
at the failing input below — one merged label, timestamp 0 paired with a
null value — formatting crashes instead of emitting a frame. -/
theorem c10_null_value_panic :
    parseGetMetricDataTimeSeries
        [("l1", { Id := "q1", Label := "l1", Timestamps := [0], Values := [none],
                  StatusCode := "Complete", Messages := [] })]
        plainQuery = .error .goPanic := by
  rfl

/-! ### Merge-phase lemmas shared by the merge claims -/

theorem mem_fragmentsOf {r : MetricDataResult} {mdos : List GetMetricDataOutput} :
    r ∈ fragmentsOf mdos ↔ ∃ mdo ∈ mdos, r ∈ mdo.MetricDataResults := by
  simp [fragmentsOf]

theorem fragmentsOf_cons (mdo : GetMetricDataOutput) (rest : List GetMetricDataOutput) :
    fragmentsOf (mdo :: rest) = mdo.MetricDataResults ++ fragmentsOf rest := by
  simp [fragmentsOf]

theorem processBatchResults_panic (exceeded : Bool) :
    ∀ (rs : List MetricDataResult) (st : Mdr × Queries),
      (∃ r ∈ rs, r.Id ∉ keysOf st.2) →
      processBatchResults exceeded rs st = .error .goPanic
  | [], _, h => by simp at h
  | r :: rest, st, h => by
    rcases hl : alookup r.Id st.2 with _ | q
    · simp [processBatchResults, hl]
    · have hrid : r.Id ∈ keysOf st.2 := by
        have := alookup_isSome_iff r.Id st.2
        simp [hl] at this
        exact this
      rcases h with ⟨r', hr', hout⟩
      rcases List.mem_cons.1 hr' with hr' | hr'
      · subst hr'
        exact absurd hrid hout
      · have hkeys : keysOf (aset r.Id { q with RequestExceededMaxLimit := exceeded } st.2)
            = keysOf st.2 := keysOf_aset_of_mem _ hrid
        have := processBatchResults_panic exceeded rest
          (mdrInsert st.1 r, aset r.Id { q with RequestExceededMaxLimit := exceeded } st.2)
          ⟨r', hr', by rw [hkeys]; exact hout⟩
        simp [processBatchResults, hl, this]

theorem processBatchResults_error_eq (exceeded : Bool) :
    ∀ (rs : List MetricDataResult) (st : Mdr × Queries) (e : ParseError),
      processBatchResults exceeded rs st = .error e → e = .goPanic
  | [], _, _, h => by simp [processBatchResults] at h
  | r :: rest, st, e, h => by
    rcases hl : alookup r.Id st.2 with _ | q
    · simp [processBatchResults, hl] at h
      exact h.symm
    · simp only [processBatchResults, hl] at h
      exact processBatchResults_error_eq exceeded rest _ e h

theorem processBatchResults_keys {exceeded : Bool} :
    ∀ {rs : List MetricDataResult} {st st' : Mdr × Queries},
      processBatchResults exceeded rs st = .ok st' → keysOf st'.2 = keysOf st.2
  | [], st, st', h => by
    simp [processBatchResults] at h
    rw [← h]
  | r :: rest, st, st', h => by
    rcases hl : alookup r.Id st.2 with _ | q
    · simp [processBatchResults, hl] at h
    · have hrid : r.Id ∈ keysOf st.2 := by
        have := alookup_isSome_iff r.Id st.2
        simp [hl] at this
        exact this
      simp only [processBatchResults, hl] at h
      have := processBatchResults_keys h
      rw [this]
      exact keysOf_aset_of_mem _ hrid

theorem processBatchResults_ok_exists (exceeded : Bool) :
    ∀ (rs : List MetricDataResult) (st : Mdr × Queries),
      (∀ r ∈ rs, r.Id ∈ keysOf st.2) →
      ∃ st', processBatchResults exceeded rs st = .ok st'
  | [], st, _ => ⟨st, rfl⟩
  | r :: rest, st, h => by
    have hrid : r.Id ∈ keysOf st.2 := h r (List.mem_cons_self _ _)
    rcases hl : alookup r.Id st.2 with _ | q
    · exact absurd hrid (by rwa [← alookup_eq_none_iff])
    · have hkeys : keysOf (aset r.Id { q with RequestExceededMaxLimit := exceeded } st.2)
          = keysOf st.2 := keysOf_aset_of_mem _ hrid
      obtain ⟨st', hst'⟩ := processBatchResults_ok_exists exceeded rest
        (mdrInsert st.1 r, aset r.Id { q with RequestExceededMaxLimit := exceeded } st.2)
        (fun r' hr' => by rw [hkeys]; exact h r' (List.mem_cons_of_mem _ hr'))
      exact ⟨st', by simp [processBatchResults, hl, hst']⟩

theorem mergePhase_panic :
    ∀ (mdos : List GetMetricDataOutput) (st : Mdr × Queries),
      (∃ r ∈ fragmentsOf mdos, r.Id ∉ keysOf st.2) →
      mergePhase mdos st = .error .goPanic
  | [], _, h => by simp [fragmentsOf] at h
  | mdo :: rest, st, h => by
    rcases h with ⟨r, hr, hout⟩
    rw [fragmentsOf_cons, List.mem_append] at hr
    rcases hr with hr | hr
    · have := processBatchResults_panic (batchExceededMaxLimit mdo)
        mdo.MetricDataResults st ⟨r, hr, hout⟩
      simp [mergePhase, this]
    · rcases hb : processBatchResults (batchExceededMaxLimit mdo) mdo.MetricDataResults st
          with e | st'
      · have he := processBatchResults_error_eq _ _ _ _ hb
        subst he
        simp [mergePhase, hb]
      · have hkeys := processBatchResults_keys hb
        have := mergePhase_panic rest st' ⟨r, hr, by rw [hkeys]; exact hout⟩
        simp [mergePhase, hb, this]

theorem mergePhase_ok_exists :
    ∀ (mdos : List GetMetricDataOutput) (st : Mdr × Queries),
      (∀ r ∈ fragmentsOf mdos, r.Id ∈ keysOf st.2) →
      ∃ st', mergePhase mdos st = .ok st'
  | [], st, _ => ⟨st, rfl⟩
  | mdo :: rest, st, h => by
    obtain ⟨stMid, hMid⟩ := processBatchResults_ok_exists (batchExceededMaxLimit mdo)
      mdo.MetricDataResults st
      (fun r hr => h r (by rw [fragmentsOf_cons, List.mem_append]; exact Or.inl hr))
    have hkeys := processBatchResults_keys hMid
    obtain ⟨st', hst'⟩ := mergePhase_ok_exists rest stMid
      (fun r hr => by
        rw [hkeys]
        exact h r (by rw [fragmentsOf_cons, List.mem_append]; exact Or.inr hr))
    exact ⟨st', by simp [mergePhase, hMid, hst']⟩

/-! ### Claim C2: unknown query id -/

/-- The single fragment of the C2 counterexample, referencing query id
`"q1"` which is absent from the (empty) queries map. -/
def c2frag : MetricDataResult :=
  { Id := "q1", Label := "l1", Timestamps := [], Values := [],
    StatusCode := "Complete", Messages := [] }

/-- The single batch of the C2 counterexample. -/
def c2batch : GetMetricDataOutput :=
  { Messages := [], MetricDataResults := [c2frag] }

/-- Claim C2 counterexample.  The claim says a fragment referencing an
unknown query id makes the merge surface an explicit error value rather
than crashing.  At this concrete input — one fragment with id `"q1"`,
an empty queries map — the merge instead hits the Go nil-map-entry
dereference `queries[*r.Id].RequestExceededMaxLimit = ...`, modelled as
the runtime-panic outcome, which is not an explicit error value. -/
theorem c2_counterexample :
    parseResponse [c2batch] [] = .error .goPanic ∧
    ParseError.goPanic.isExplicitError = false :=
  ⟨rfl, rfl⟩

/-- Claim C2 (corrected).  A fragment referencing a query id absent from
the queries map makes the merge crash with a runtime fault (nil map-entry
dereference) that aborts the whole `parseResponse`: no partial merged
result is returned, but no explicit error value is produced either — the
outcome is a panic. -/
theorem c2_amended (mdos : List GetMetricDataOutput) (queries : Queries)
    (h : ∃ r ∈ fragmentsOf mdos, r.Id ∉ keysOf queries) :
    parseResponse mdos queries = .error .goPanic := by
  unfold parseResponse
  rw [mergePhase_panic mdos ([], queries) h]

/-- Witness for C2 at the concrete counterexample input. -/
theorem c2_amended_witness :
    (∃ r ∈ fragmentsOf [c2batch], r.Id ∉ keysOf ([] : Queries)) ∧
    parseResponse [c2batch] [] = .error .goPanic := by
  have hmem : ∃ r ∈ fragmentsOf [c2batch], r.Id ∉ keysOf ([] : Queries) :=
    ⟨c2frag, by simp [fragmentsOf, c2batch], by simp [keysOf]⟩
  exact ⟨hmem, c2_amended [c2batch] [] hmem⟩

/-! ### Claim C3: the limit-exceeded flag -/

/-- The per-query limit-exceeded flag produced by the merge loop: each
batch containing a fragment for the query overwrites the flag with that
batch's `"MaxMetricsExceeded"` status (the assignment
`queries[*r.Id].RequestExceededMaxLimit = requestExceededMaxLimit` is
unconditional). -/
def finalLimitFlag (mdos : List GetMetricDataOutput) (id : String) (init : Bool) : Bool :=
  mdos.foldl
    (fun acc mdo =>
      if mdo.MetricDataResults.any (fun r => r.Id == id) then batchExceededMaxLimit mdo
      else acc)
    init

/-- The last batch whose fragments reference the query id. -/
def lastReferencingBatch (mdos : List GetMetricDataOutput) (id : String) :
    Option GetMetricDataOutput :=
  (mdos.filter (fun mdo => mdo.MetricDataResults.any (fun r => r.Id == id))).getLast?

theorem processBatchResults_lookup (exceeded : Bool) :
    ∀ (rs : List MetricDataResult) (st st' : Mdr × Queries) (id : String),
      processBatchResults exceeded rs st = .ok st' →
      alookup id st'.2 = (alookup id st.2).map
        (fun q => if rs.any (fun r => r.Id == id) then
            { q with RequestExceededMaxLimit := exceeded } else q)
  | [], st, st', id, h => by
    simp [processBatchResults] at h
    subst h
    rcases alookup id st.2 with _ | q <;> simp
  | r :: rest, st, st', id, h => by
    rcases hl : alookup r.Id st.2 with _ | q
    · simp [processBatchResults, hl] at h
    · simp only [processBatchResults, hl] at h
      have ih := processBatchResults_lookup exceeded rest _ st' id h
      by_cases hid : r.Id = id
      · subst hid
        rw [alookup_aset_self] at ih
        rw [hl]
        simp only [List.any_cons, beq_self_eq_true, Bool.true_or, if_pos]
        rcases hany : rest.any (fun r' => r'.Id == r.Id) with _ | _ <;> simp [hany] at ih <;>
          simp [ih]
      · rw [alookup_aset_ne _ _ (fun hh => hid hh.symm)] at ih
        have hbeq : (r.Id == id) = false := by simp [hid]
        simp only [List.any_cons, hbeq, Bool.false_or]
        exact ih

theorem mergePhase_lookup :
    ∀ (mdos : List GetMetricDataOutput) (st st' : Mdr × Queries) (id : String),
      mergePhase mdos st = .ok st' →
      alookup id st'.2 = (alookup id st.2).map
        (fun q => { q with
          RequestExceededMaxLimit := finalLimitFlag mdos id q.RequestExceededMaxLimit })
  | [], st, st', id, h => by
    simp [mergePhase] at h
    subst h
    rcases alookup id st.2 with _ | q <;> simp [finalLimitFlag]
  | mdo :: rest, st, st', id, h => by
    rcases hb : processBatchResults (batchExceededMaxLimit mdo) mdo.MetricDataResults st
        with e | stMid
    · simp [mergePhase, hb] at h
    · simp only [mergePhase, hb] at h
      have ih := mergePhase_lookup rest stMid st' id h
      have hstep := processBatchResults_lookup (batchExceededMaxLimit mdo)
        mdo.MetricDataResults st stMid id hb
      rw [hstep, Option.map_map] at ih
      rw [ih]
      rcases hopt : alookup id st.2 with _ | q
      · rfl
      · rcases hany : mdo.MetricDataResults.any (fun r => r.Id == id) with _ | _
        · have hf : finalLimitFlag (mdo :: rest) id q.RequestExceededMaxLimit
              = finalLimitFlag rest id q.RequestExceededMaxLimit := by
            simp only [finalLimitFlag, List.foldl_cons]
            rw [if_neg (by simp [hany])]
          simp only [Option.map_some', Function.comp_apply, Bool.false_eq_true, if_false, hf]
        · have hf : finalLimitFlag (mdo :: rest) id q.RequestExceededMaxLimit
              = finalLimitFlag rest id (batchExceededMaxLimit mdo) := by
            simp only [finalLimitFlag, List.foldl_cons]
            rw [if_pos hany]
          simp only [Option.map_some', Function.comp_apply, if_true, hf]

theorem finalLimitFlag_eq_lastReferencing :
    ∀ (mdos : List GetMetricDataOutput) (id : String) (init : Bool),
      finalLimitFlag mdos id init =
        (lastReferencingBatch mdos id).elim init batchExceededMaxLimit
  | [], _, _ => rfl
  | mdo :: rest, id, init => by
    rcases hp : mdo.MetricDataResults.any (fun r => r.Id == id) with _ | _
    · have ih := finalLimitFlag_eq_lastReferencing rest id init
      have hstep : finalLimitFlag (mdo :: rest) id init = finalLimitFlag rest id init := by
        simp only [finalLimitFlag, List.foldl_cons]
        rw [if_neg (by simp [hp])]
      rw [hstep, ih]
      have hfil : lastReferencingBatch (mdo :: rest) id = lastReferencingBatch rest id := by
        simp only [lastReferencingBatch, List.filter_cons]
        rw [if_neg (by simp [hp])]
      rw [hfil]
    · have ih := finalLimitFlag_eq_lastReferencing rest id (batchExceededMaxLimit mdo)
      have hstep : finalLimitFlag (mdo :: rest) id init
          = finalLimitFlag rest id (batchExceededMaxLimit mdo) := by
        simp only [finalLimitFlag, List.foldl_cons]
        rw [if_pos hp]
      rw [hstep, ih]
      simp only [lastReferencingBatch, List.filter_cons]
      rw [if_pos hp]
      cases hfl : rest.filter (fun b => b.MetricDataResults.any (fun r => r.Id == id)) with
      | nil => simp
      | cons c u =>
        rw [List.getLast?_cons_cons]
        rcases hgl : (c :: u).getLast? with _ | x
        · exact absurd (List.getLast?_eq_none_iff.1 hgl) (by simp)
        · rfl

/-- The fragment of the C3 counterexample: an empty Complete fragment of
query `"q1"`. -/
def c3frag : MetricDataResult :=
  { Id := "q1", Label := "l1", Timestamps := [], Values := [],
    StatusCode := "Complete", Messages := [] }

/-- First C3 batch: carries the batch-level `"MaxMetricsExceeded"`
message and references query `"q1"`. -/
def c3batch1 : GetMetricDataOutput :=
  { Messages := [{ Code := "MaxMetricsExceeded", Value := "" }],
    MetricDataResults := [c3frag] }

/-- Second C3 batch: no messages, also references query `"q1"`. -/
def c3batch2 : GetMetricDataOutput :=
  { Messages := [], MetricDataResults := [c3frag] }

/-- Claim C3 counterexample.  Batch 1 carries `"MaxMetricsExceeded"` and
contains a fragment for query `"q1"`, so the claim requires the final
exceeded-limit flag to be true; but batch 2 — also referencing `"q1"`,
without the message — is processed later and the unconditional assignment
clears the flag: the response reports `false`. -/
theorem c3_counterexample :
    c3batch1.Messages.map Message.Code = ["MaxMetricsExceeded"] ∧
    c3frag ∈ c3batch1.MetricDataResults ∧ c3frag.Id = "q1" ∧
    (parseResponse [c3batch1, c3batch2] [("q1", plainQuery)]).map
        (fun rs => rs.map (fun resp => (resp.Id, resp.RequestExceededMaxLimit)))
      = .ok [("q1", false)] :=
  ⟨rfl, by decide, rfl, by rfl⟩

/-- Claim C3 (corrected).  The merge loop assigns the per-query
exceeded-limit flag unconditionally for every batch containing a fragment
for the query, so the final flag equals the `"MaxMetricsExceeded"` status
of the last batch containing a fragment for that query (the query's
initial flag when no batch references it).  A later batch without the
message clears a flag set true by an earlier batch — the flag is
last-batch-wins, not sticky. -/
theorem c3_amended (mdos : List GetMetricDataOutput) (queries : Queries)
    (id : String) (q0 : CloudWatchQuery)
    (hall : ∀ r ∈ fragmentsOf mdos, r.Id ∈ keysOf queries)
    (hq : alookup id queries = some q0) :
    ∃ mdr queries',
      mergePhase mdos ([], queries) = .ok (mdr, queries') ∧
      alookup id queries' =
        some { q0 with
               RequestExceededMaxLimit := (lastReferencingBatch mdos id).elim
                 q0.RequestExceededMaxLimit batchExceededMaxLimit } := by
  obtain ⟨st', hst'⟩ := mergePhase_ok_exists mdos ([], queries) hall
  refine ⟨st'.1, st'.2, by rw [hst'], ?_⟩
  have hlk := mergePhase_lookup mdos ([], queries) st' id hst'
  rw [hq] at hlk
  simp only [Option.map_some'] at hlk
  rw [hlk, finalLimitFlag_eq_lastReferencing]

/-- Witness for C3 at the concrete counterexample input. -/
theorem c3_amended_witness :
    (∀ r ∈ fragmentsOf [c3batch1, c3batch2], r.Id ∈ keysOf [("q1", plainQuery)]) ∧
    (∃ mdr queries',
      mergePhase [c3batch1, c3batch2] ([], [("q1", plainQuery)]) = .ok (mdr, queries') ∧
      alookup "q1" queries' =
        some { plainQuery with
               RequestExceededMaxLimit :=
                 (lastReferencingBatch [c3batch1, c3batch2] "q1").elim
                   plainQuery.RequestExceededMaxLimit batchExceededMaxLimit }) :=
  ⟨by decide, c3_amended [c3batch1, c3batch2] [("q1", plainQuery)] "q1" plainQuery
    (by decide) rfl⟩

/-! ### Claim C4: merge concatenation and status upgrade -/

/-- Lookup of the merged entry of one (id, label) pair. -/
def mdrLookup2 (id label : String) (mdr : Mdr) : Option MetricDataResult :=
  (alookup id mdr).bind (alookup label)

/-- The effect of the fragment fold on one (id, label) slot, folded over a
fragment list: the first matching fragment is inserted as-is, every later
one is appended. -/
def combineFrags : Option MetricDataResult → List MetricDataResult → Option MetricDataResult
  | acc, [] => acc
  | none, f :: fs => combineFrags (some f) fs
  | some e, f :: fs => combineFrags (some (appendFrag e f)) fs

theorem mdrInsert_lookup2 (mdr : Mdr) (r : MetricDataResult) (id label : String) :
    mdrLookup2 id label (mdrInsert mdr r) =
      if r.Id = id ∧ r.Label = label then
        match mdrLookup2 id label mdr with
        | none => some r
        | some e => some (appendFrag e r)
      else mdrLookup2 id label mdr := by
  rcases ho : alookup r.Id mdr with _ | inner
  · have hstep : mdrInsert mdr r = aset r.Id [(r.Label, r)] mdr := by
      simp only [mdrInsert, ho]
    by_cases hid : r.Id = id
    · subst hid
      by_cases hlab : r.Label = label
      · subst hlab
        rw [if_pos ⟨rfl, rfl⟩, mdrLookup2, mdrLookup2, hstep, alookup_aset_self, ho]
        simp [alookup]
      · have hlab' : ¬label = r.Label := fun hh => hlab hh.symm
        rw [if_neg (fun hh => hlab hh.2), mdrLookup2, mdrLookup2, hstep,
          alookup_aset_self, ho]
        simp [alookup, hlab']
    · have hne : id ≠ r.Id := fun hh => hid hh.symm
      rw [if_neg (fun hh => hid hh.1), mdrLookup2, mdrLookup2, hstep,
        alookup_aset_ne _ _ hne]
  · rcases hi : alookup r.Label inner with _ | existing
    · have hstep : mdrInsert mdr r = aset r.Id (aset r.Label r inner) mdr := by
        simp only [mdrInsert, ho, hi]
      by_cases hid : r.Id = id
      · subst hid
        by_cases hlab : r.Label = label
        · subst hlab
          rw [if_pos ⟨rfl, rfl⟩, mdrLookup2, mdrLookup2, hstep, alookup_aset_self, ho]
          simp [alookup_aset_self, hi]
        · have hlab' : ¬label = r.Label := fun hh => hlab hh.symm
          rw [if_neg (fun hh => hlab hh.2), mdrLookup2, mdrLookup2, hstep,
            alookup_aset_self, ho]
          simp [alookup_aset_ne _ _ hlab']
      · have hne : id ≠ r.Id := fun hh => hid hh.symm
        rw [if_neg (fun hh => hid hh.1), mdrLookup2, mdrLookup2, hstep,
          alookup_aset_ne _ _ hne]
    · have hstep : mdrInsert mdr r
          = aset r.Id (aset r.Label (appendFrag existing r) inner) mdr := by
        simp only [mdrInsert, ho, hi]
      by_cases hid : r.Id = id
      · subst hid
        by_cases hlab : r.Label = label
        · subst hlab
          rw [if_pos ⟨rfl, rfl⟩, mdrLookup2, mdrLookup2, hstep, alookup_aset_self, ho]
          simp [alookup_aset_self, hi]
        · have hlab' : ¬label = r.Label := fun hh => hlab hh.symm
          rw [if_neg (fun hh => hlab hh.2), mdrLookup2, mdrLookup2, hstep,
            alookup_aset_self, ho]
          simp [alookup_aset_ne _ _ hlab']
      · have hne : id ≠ r.Id := fun hh => hid hh.symm
        rw [if_neg (fun hh => hid hh.1), mdrLookup2, mdrLookup2, hstep,
          alookup_aset_ne _ _ hne]

theorem foldl_mdrInsert_lookup2 :
    ∀ (frags : List MetricDataResult) (mdr : Mdr) (id label : String),
      mdrLookup2 id label (frags.foldl mdrInsert mdr) =
        combineFrags (mdrLookup2 id label mdr)
          (frags.filter (fun r => r.Id == id && r.Label == label))
  | [], mdr, id, label => by
    rw [List.foldl_nil, List.filter_nil]
    rcases mdrLookup2 id label mdr with _ | e <;> rfl
  | r :: fs, mdr, id, label => by
    rw [List.foldl_cons, foldl_mdrInsert_lookup2 fs (mdrInsert mdr r) id label,
      mdrInsert_lookup2]
    by_cases hm : r.Id = id ∧ r.Label = label
    · rw [if_pos hm]
      have hb : (r.Id == id && r.Label == label) = true := by
        simp [hm.1, hm.2]
      rw [List.filter_cons, if_pos hb]
      rcases mdrLookup2 id label mdr with _ | e <;> rfl
    · rw [if_neg hm]
      have hb : (r.Id == id && r.Label == label) = false := by
        rcases not_and_or.1 hm with hh | hh <;> simp [hh]
      rw [List.filter_cons]
      simp only [hb, Bool.false_eq_true, if_false]

theorem combineFrags_some_spec :
    ∀ (fs : List MetricDataResult) (acc : MetricDataResult),
      ∃ m, combineFrags (some acc) fs = some m ∧
        m.Timestamps = acc.Timestamps ++ fs.flatMap (fun f => f.Timestamps) ∧
        m.Values = acc.Values ++ fs.flatMap (fun f => f.Values) ∧
        (m.StatusCode = "Complete" ↔
          acc.StatusCode = "Complete" ∨ ∃ f ∈ fs, f.StatusCode = "Complete")
  | [], acc => ⟨acc, rfl, by simp, by simp, by simp⟩
  | f :: fs, acc => by
    obtain ⟨m, hm, ht, hv, hs⟩ := combineFrags_some_spec fs (appendFrag acc f)
    refine ⟨m, hm, ?_, ?_, ?_⟩
    · rw [ht]
      simp [appendFrag]
    · rw [hv]
      simp [appendFrag]
    · rw [hs]
      by_cases hc : f.StatusCode = "Complete"
      · simp only [appendFrag, if_pos hc]
        simp only [List.mem_cons]
        constructor
        · intro _
          exact Or.inr ⟨f, Or.inl rfl, hc⟩
        · intro _
          exact Or.inl hc
      · simp only [appendFrag, if_neg hc]
        simp only [List.mem_cons]
        constructor
        · rintro (h | ⟨g, hg, hgc⟩)
          · exact Or.inl h
          · exact Or.inr ⟨g, Or.inr hg, hgc⟩
        · rintro (h | ⟨g, (rfl | hg), hgc⟩)
          · exact Or.inl h
          · exact absurd hgc hc
          · exact Or.inr ⟨g, hg, hgc⟩

theorem processBatchResults_mdr {exceeded : Bool} :
    ∀ {rs : List MetricDataResult} {st st' : Mdr × Queries},
      processBatchResults exceeded rs st = .ok st' → st'.1 = rs.foldl mdrInsert st.1
  | [], st, st', h => by
    simp [processBatchResults] at h
    rw [← h, List.foldl_nil]
  | r :: rest, st, st', h => by
    rcases hl : alookup r.Id st.2 with _ | q
    · simp [processBatchResults, hl] at h
    · simp only [processBatchResults, hl] at h
      have ih := processBatchResults_mdr h
      rw [List.foldl_cons]
      exact ih

theorem mergePhase_mdr :
    ∀ {mdos : List GetMetricDataOutput} {st st' : Mdr × Queries},
      mergePhase mdos st = .ok st' → st'.1 = (fragmentsOf mdos).foldl mdrInsert st.1
  | [], st, st', h => by
    simp [mergePhase] at h
    subst h
    simp [fragmentsOf]
  | mdo :: rest, st, st', h => by
    rcases hb : processBatchResults (batchExceededMaxLimit mdo) mdo.MetricDataResults st
        with e | stMid
    · simp [mergePhase, hb] at h
    · simp only [mergePhase, hb] at h
      have ih := mergePhase_mdr h
      rw [ih, processBatchResults_mdr hb, fragmentsOf_cons, List.foldl_append]

/-- Claim C4 (confirmed).  For every (id, label) pair referenced by at
least one fragment, the merge produces an entry whose timestamp and value
sequences are the concatenations, in batch-arrival order, of the matching
fragments' sequences, and whose status is `"Complete"` exactly when at
least one matching fragment's status was `"Complete"`. -/
theorem c4_merge_concatenation (mdos : List GetMetricDataOutput) (queries : Queries)
    (id label : String)
    (hall : ∀ r ∈ fragmentsOf mdos, r.Id ∈ keysOf queries)
    (hfrag : ∃ r ∈ fragmentsOf mdos, r.Id = id ∧ r.Label = label) :
    ∃ mdr queries' merged,
      mergePhase mdos ([], queries) = .ok (mdr, queries') ∧
      mdrLookup2 id label mdr = some merged ∧
      merged.Timestamps = ((fragmentsOf mdos).filter
          (fun r => r.Id == id && r.Label == label)).flatMap (fun f => f.Timestamps) ∧
      merged.Values = ((fragmentsOf mdos).filter
          (fun r => r.Id == id && r.Label == label)).flatMap (fun f => f.Values) ∧
      (merged.StatusCode = "Complete" ↔
        ∃ r ∈ (fragmentsOf mdos).filter (fun r => r.Id == id && r.Label == label),
          r.StatusCode = "Complete") := by
  obtain ⟨st', hst'⟩ := mergePhase_ok_exists mdos ([], queries) hall
  have hmdr : st'.1 = (fragmentsOf mdos).foldl mdrInsert [] := mergePhase_mdr hst'
  rcases hfil : (fragmentsOf mdos).filter (fun r => r.Id == id && r.Label == label)
      with _ | ⟨f, fs⟩
  · obtain ⟨r, hr, hrid, hrlab⟩ := hfrag
    have : r ∈ (fragmentsOf mdos).filter (fun r => r.Id == id && r.Label == label) :=
      List.mem_filter.2 ⟨hr, by simp [hrid, hrlab]⟩
    rw [hfil] at this
    simp at this
  · have hl2 := foldl_mdrInsert_lookup2 (fragmentsOf mdos) [] id label
    rw [hfil] at hl2
    obtain ⟨m, hm, ht, hv, hs⟩ := combineFrags_some_spec fs f
    refine ⟨st'.1, st'.2, m, by rw [hst'], ?_, ?_, ?_, ?_⟩
    · rw [hmdr, hl2]
      simpa [combineFrags, mdrLookup2, alookup] using hm
    · rw [ht, hfil, List.flatMap_cons]
    · rw [hv, hfil, List.flatMap_cons]
    · rw [hs, hfil]
      simp only [List.mem_cons]
      constructor
      · rintro (h | ⟨g, hg, hgc⟩)
        · exact ⟨f, Or.inl rfl, h⟩
        · exact ⟨g, Or.inr hg, hgc⟩
      · rintro ⟨g, (rfl | hg), hgc⟩
        · exact Or.inl hgc
        · exact Or.inr ⟨g, hg, hgc⟩

/-- The partial first fragment of the C4 witness. -/
def c4frag1 : MetricDataResult :=
  { Id := "q1", Label := "l1", Timestamps := [0], Values := [some 1],
    StatusCode := "PartialData", Messages := [] }

/-- The Complete continuation fragment of the C4 witness. -/
def c4frag2 : MetricDataResult :=
  { Id := "q1", Label := "l1", Timestamps := [60], Values := [some 2],
    StatusCode := "Complete", Messages := [] }

/-- First C4 witness batch: a partial fragment of (q1, l1). -/
def c4batch1 : GetMetricDataOutput :=
  { Messages := [], MetricDataResults := [c4frag1] }

/-- Second C4 witness batch: the Complete continuation of (q1, l1). -/
def c4batch2 : GetMetricDataOutput :=
  { Messages := [], MetricDataResults := [c4frag2] }

/-- Witness for C4 at a concrete two-batch continuation. -/
theorem c4_merge_concatenation_witness :
    (∀ r ∈ fragmentsOf [c4batch1, c4batch2], r.Id ∈ keysOf [("q1", plainQuery)]) ∧
    ∃ mdr queries' merged,
      mergePhase [c4batch1, c4batch2] ([], [("q1", plainQuery)]) = .ok (mdr, queries') ∧
      mdrLookup2 "q1" "l1" mdr = some merged ∧
      merged.Timestamps = ((fragmentsOf [c4batch1, c4batch2]).filter
          (fun r => r.Id == "q1" && r.Label == "l1")).flatMap (fun f => f.Timestamps) ∧
      merged.Values = ((fragmentsOf [c4batch1, c4batch2]).filter
          (fun r => r.Id == "q1" && r.Label == "l1")).flatMap (fun f => f.Values) ∧
      (merged.StatusCode = "Complete" ↔
        ∃ r ∈ (fragmentsOf [c4batch1, c4batch2]).filter
            (fun r => r.Id == "q1" && r.Label == "l1"),
          r.StatusCode = "Complete") :=
  ⟨by decide, c4_merge_concatenation [c4batch1, c4batch2] [("q1", plainQuery)] "q1" "l1"
    (by decide) ⟨c4frag1, by decide, rfl, rfl⟩⟩

/-! ### Claim C5: the partial-data flag -/

/-- The per-label incompleteness test the formatter loop applies (false on
a missing label, which under a successful run cannot occur). -/
def labelIncomplete (m : List (String × MetricDataResult)) (l : String) : Bool :=
  match alookup l m with
  | some r => !(r.StatusCode == "Complete")
  | none => false

theorem formatLoop_partialData (m : List (String × MetricDataResult))
    (q : CloudWatchQuery) :
    ∀ (ls : List String) (pd0 : Bool) (fr : List Frame) (pd : Bool),
      formatLoop m q ls pd0 = .ok (fr, pd) →
      pd = (pd0 || ls.any (labelIncomplete m))
  | [], pd0, fr, pd, h => by
    simp only [formatLoop, Except.ok.injEq, Prod.mk.injEq] at h
    simp [← h.2]
  | l :: ls, pd0, fr, pd, h => by
    rcases hl : alookup l m with _ | r
    · simp [formatLoop, hl] at h
    · simp only [formatLoop, hl] at h
      rcases ha : firstArithmeticError q.RefId r.Messages with _ | e
      · rw [ha] at h
        rcases hf : labelFrames q l r with e' | fs
        · simp [hf] at h
        · rw [hf] at h
          rcases hrest : formatLoop m q ls (pd0 || !(r.StatusCode == "Complete"))
              with e'' | p
          · rw [hrest] at h
            simp at h
          · rw [hrest] at h
            simp only [Except.ok.injEq] at h
            obtain ⟨p1, p2⟩ := p
            have ih := formatLoop_partialData m q ls
              (pd0 || !(r.StatusCode == "Complete")) p1 p2 hrest
            have hpd : pd = p2 := by
              cases h
              rfl
            rw [hpd, ih, List.any_cons]
            have hg : labelIncomplete m l = !(r.StatusCode == "Complete") := by
              rw [labelIncomplete, hl]
            rw [hg, Bool.or_assoc]
      · rw [ha] at h
        simp at h

/-- Claim C5 (corrected).  The partial-data flag returned by formatting is
the OR, over the merged label entries, of that entry's merged status not
being `"Complete"` — not the OR over every contributing fragment: the
merge upgrades a label's status to `"Complete"` when any later fragment is
Complete, so an incomplete fragment whose label also received a Complete
fragment does not set the flag. -/
theorem c5_amended (m : List (String × MetricDataResult)) (q : CloudWatchQuery)
    (fr : List Frame) (pd : Bool) (hnd : (keysOf m).Nodup)
    (h : parseGetMetricDataTimeSeries m q = .ok (fr, pd)) :
    pd = true ↔ ∃ p ∈ m, p.2.StatusCode ≠ "Complete" := by
  have hloop := formatLoop_partialData m q (metricDataResultLabels m) false fr pd h
  rw [Bool.false_or] at hloop
  rw [hloop, List.any_eq_true]
  constructor
  · rintro ⟨l, hlmem, hinc⟩
    rcases hal : alookup l m with _ | r
    · rw [labelIncomplete, hal] at hinc
      simp at hinc
    · refine ⟨(l, r), mem_of_alookup_eq_some hal, ?_⟩
      rw [labelIncomplete, hal] at hinc
      simpa using hinc
  · rintro ⟨⟨l, r⟩, hmem, hst⟩
    refine ⟨l, ?_, ?_⟩
    · have : l ∈ keysOf m := mem_keysOf_of_mem hmem
      simpa [metricDataResultLabels, List.mem_insertionSort] using this
    · rw [labelIncomplete, alookup_eq_some_of_mem hnd hmem]
      simpa using hst

/-- Claim C5 counterexample.  Query q1's label l1 receives a
`"PartialData"` fragment from batch 1 and a `"Complete"` fragment from
batch 2; the claim's OR over all contributing fragments is true, but the
pipeline reports `partialData = false` because the merged status was
upgraded to Complete. -/
theorem c5_counterexample :
    (fragmentsOf [c4batch1, c4batch2]).map (fun r => r.StatusCode)
      = ["PartialData", "Complete"] ∧
    (parseResponse [c4batch1, c4batch2] [("q1", plainQuery)]).map
      (fun rs => rs.map (fun resp => resp.PartialData)) = .ok [false] :=
  ⟨rfl, by rfl⟩

/-- The merged map of the C5 witness: one label whose merged status is not
Complete. -/
def c5m : List (String × MetricDataResult) :=
  [("l1", { Id := "q1", Label := "l1", Timestamps := [0], Values := [some 1],
            StatusCode := "PartialData", Messages := [] })]

/-- Witness for C5 at a concrete merged map. -/
theorem c5_amended_witness :
    (true = true) ↔ ∃ p ∈ c5m, p.2.StatusCode ≠ "Complete" :=
  c5_amended c5m plainQuery
    [{ Name := "x", fields := some ([0], [some 1]), tags := [] }] true
    (by decide) (by rfl)

/-! ### Claim C7: zero-data multi-valued-dimension fan-out -/

/-- Well-formedness of a query with respect to `formatAlias`: a
user-defined search expression has a comma in its expression, so the
slice `query.Expression[:pIndex]` is in range and `formatAlias` does not
panic. -/
def aliasCommaOK (q : CloudWatchQuery) : Prop :=
  q.isUserDefinedSearchExpression = true → 0 ≤ lastIndexOfChar ',' q.Expression.data

theorem formatAlias_isSome (q : CloudWatchQuery) (stat : String)
    (dims : List (String × String)) (label : String) (hOK : aliasCommaOK q) :
    ∃ s, formatAlias q stat dims label = some s := by
  rcases hu : q.isUserDefinedSearchExpression with _ | _
  · simp only [formatAlias, resolvedStatPeriod, hu, Bool.false_eq_true, if_false]
    repeat' split
    all_goals exact ⟨_, rfl⟩
  · have hge : ¬(lastIndexOfChar ',' q.Expression.data < 0) := not_lt.2 (hOK hu)
    simp only [formatAlias, resolvedStatPeriod, hu, if_true, if_neg hge]
    repeat' split
    all_goals exact ⟨_, rfl⟩

theorem foldl_dominantStep_fst_le :
    ∀ (todo : List (String × List String)) (acc : Nat × String),
      acc.1 ≤ (todo.foldl dominantStep acc).1
  | [], _ => le_refl _
  | p :: todo, acc => by
    have h1 : acc.1 ≤ (dominantStep acc p).1 := by
      rw [dominantStep]
      split
      · exact le_of_lt (by assumption)
      · exact le_refl _
    exact le_trans h1 (foldl_dominantStep_fst_le todo (dominantStep acc p))

theorem foldl_dominantStep_bound :
    ∀ (todo : List (String × List String)) (acc : Nat × String),
      ∀ p ∈ todo, p.2.length ≤ (todo.foldl dominantStep acc).1
  | [], _, p, hp => by simp at hp
  | r :: todo, acc, p, hp => by
    rcases List.mem_cons.1 hp with hp | hp
    · subst hp
      have h1 : p.2.length ≤ (dominantStep acc p).1 := by
        rw [dominantStep]
        split
        · exact le_refl _
        · omega
      exact le_trans h1 (foldl_dominantStep_fst_le todo (dominantStep acc p))
    · exact foldl_dominantStep_bound todo (dominantStep acc r) p hp

theorem foldl_dominantStep_source :
    ∀ (todo : List (String × List String)) (acc : Nat × String),
      todo.foldl dominantStep acc = acc ∨
        ∃ p ∈ todo, (todo.foldl dominantStep acc).2 = p.1 ∧
          (todo.foldl dominantStep acc).1 = p.2.length
  | [], _ => Or.inl rfl
  | r :: todo, acc => by
    rcases foldl_dominantStep_source todo (dominantStep acc r) with h | ⟨p, hp, h2, h1⟩
    · rw [List.foldl_cons, h]
      rw [dominantStep]
      split
      · exact Or.inr ⟨r, List.mem_cons_self _ _, rfl, rfl⟩
      · exact Or.inl rfl
    · exact Or.inr ⟨p, List.mem_cons_of_mem _ hp, h2, h1⟩

theorem dominantDimension_lookup (dims : List (String × List String))
    (hnd : (keysOf dims).Nodup) :
    ((alookup (dominantDimension dims).2 dims).getD []).length
      = (dominantDimension dims).1 := by
  rcases foldl_dominantStep_source dims (0, "") with h | ⟨p, hp, h2, h1⟩
  · rw [dominantDimension, h]
    rcases ha : alookup "" dims with _ | vs
    · rfl
    · have hmem := mem_of_alookup_eq_some ha
      have hb := foldl_dominantStep_bound dims (0, "") ("", vs) hmem
      rw [show dims.foldl dominantStep (0, "") = ((0 : Nat), "") from h] at hb
      have hb' : vs.length ≤ 0 := hb
      simp only [Option.getD_some]
      exact Nat.le_zero.1 hb'
  · rw [dominantDimension, h2, h1]
    have : alookup p.1 dims = some p.2 := alookup_eq_some_of_mem hnd (by simpa using hp)
    rw [this]
    rfl

theorem dominantDimension_max (dims : List (String × List String))
    (hnd : (keysOf dims).Nodup) :
    ∀ p ∈ dims, p.2.length ≤ ((alookup (dominantDimension dims).2 dims).getD []).length := by
  intro p hp
  rw [dominantDimension_lookup dims hnd]
  exact foldl_dominantStep_bound dims (0, "") p hp

theorem foldl_tagStep_mvd (mvd : String) :
    ∀ (todo : List (String × List String)) (tags : List (String × String)),
      alookup mvd (todo.foldl (fanOutTagStep mvd) tags) = alookup mvd tags
  | [], _ => rfl
  | p :: todo, tags => by
    rw [List.foldl_cons, foldl_tagStep_mvd mvd todo (fanOutTagStep mvd tags p)]
    rw [fanOutTagStep]
    split
    · next hc => exact alookup_aset_ne _ _ (fun hh => hc.1 hh.symm)
    · rfl

theorem foldl_tagStep_ne (mvd : String) :
    ∀ (todo : List (String × List String)) (tags : List (String × String)) (k : String),
      (∀ p ∈ todo, p.1 ≠ k) →
      alookup k (todo.foldl (fanOutTagStep mvd) tags) = alookup k tags
  | [], _, _, _ => rfl
  | p :: todo, tags, k, h => by
    rw [List.foldl_cons,
      foldl_tagStep_ne mvd todo (fanOutTagStep mvd tags p) k
        (fun p' hp' => h p' (List.mem_cons_of_mem _ hp'))]
    rw [fanOutTagStep]
    split
    · exact alookup_aset_ne _ _ (fun hh => h p (List.mem_cons_self _ _) hh.symm)
    · rfl

theorem fanOutTags_mvd (dims : List (String × List String)) (mvd value : String) :
    alookup mvd (fanOutTags dims mvd value) = some value := by
  rw [fanOutTags, foldl_tagStep_mvd]
  simp [alookup]

theorem fanOutTags_other :
    ∀ (dims : List (String × List String)) (tags : List (String × String))
      (mvd value : String) (k : String) (vs : List String),
      (keysOf dims).Nodup → (k, vs) ∈ dims → k ≠ mvd → vs ≠ [] →
      alookup k (dims.foldl (fanOutTagStep mvd) tags) = some (vs.headD "")
  | [], _, _, _, _, _, _, hmem, _, _ => by simp at hmem
  | p :: dims, tags, mvd, value, k, vs, hnd, hmem, hk, hvs => by
    rw [keysOf_cons, List.nodup_cons] at hnd
    rcases List.mem_cons.1 hmem with hmem | hmem
    · have hp1 : p.1 = k := by rw [← hmem]
      have hp2 : p.2 = vs := by rw [← hmem]
      rw [List.foldl_cons]
      rw [foldl_tagStep_ne mvd dims (fanOutTagStep mvd tags p) k
        (fun p' hp' hkk => hnd.1 (by rw [hp1, ← hkk]; exact mem_keysOf_of_mem hp'))]
      rw [fanOutTagStep, if_pos ⟨by rw [hp1]; exact hk, by
        rw [hp2]; exact List.length_pos.2 hvs⟩]
      rw [hp1, hp2, alookup_aset_self]
    · have hp1 : p.1 ≠ k := by
        intro hh
        exact hnd.1 (hh ▸ mem_keysOf_of_mem hmem)
      rw [List.foldl_cons]
      exact fanOutTags_other dims (fanOutTagStep mvd tags p) mvd value k vs
        hnd.2 hmem hk hvs

theorem fanOutLoop_map (q : CloudWatchQuery) (label mvd : String) (hOK : aliasCommaOK q) :
    ∀ (cands : List String),
      ∃ frames, fanOutLoop q label mvd cands = .ok frames ∧
        frames.map Frame.fields = cands.map (fun _ => none) ∧
        frames.map Frame.tags = cands.map (fanOutTags q.Dimensions mvd)
  | [] => ⟨[], rfl, rfl, rfl⟩
  | v :: vs => by
    obtain ⟨nm, hnm⟩ := formatAlias_isSome q q.Stats (fanOutTags q.Dimensions mvd v)
      label hOK
    obtain ⟨frames, hf, hfields, htags⟩ := fanOutLoop_map q label mvd hOK vs
    refine ⟨{ Name := nm, fields := none, tags := fanOutTags q.Dimensions mvd v } :: frames,
      ?_, ?_, ?_⟩
    · rw [fanOutLoop, hnm, hf]
    · simp [hfields]
    · simp [htags]

/-- Claim C7 (corrected).  For a query classified as
multi-valued-dimension whose merged result has no values, formatting
synthesizes exactly one empty frame (no fields) per candidate value of the
dominant dimension (the dimension with the most candidates), tagging each
frame with the dominant dimension set to its candidate value — plus, for
every other dimension with AT LEAST ONE candidate, that dimension's FIRST
candidate value (the source checks `len(values) > 0` and uses `values[0]`,
not "exactly one candidate" as the claim states). -/
theorem c7_amended (q : CloudWatchQuery) (label : String) (r : MetricDataResult)
    (hval : r.Values = [])
    (hmv : q.isMultiValuedDimensionExpression = true)
    (hOK : aliasCommaOK q)
    (hnd : (keysOf q.Dimensions).Nodup) :
    ∃ frames, labelFrames q label r = .ok frames ∧
      frames.map Frame.fields
        = ((alookup (dominantDimension q.Dimensions).2 q.Dimensions).getD []).map
            (fun _ => none) ∧
      frames.map Frame.tags
        = ((alookup (dominantDimension q.Dimensions).2 q.Dimensions).getD []).map
            (fanOutTags q.Dimensions (dominantDimension q.Dimensions).2) ∧
      (∀ p ∈ q.Dimensions,
        p.2.length
          ≤ ((alookup (dominantDimension q.Dimensions).2 q.Dimensions).getD []).length) ∧
      (∀ value ∈ (alookup (dominantDimension q.Dimensions).2 q.Dimensions).getD [],
        alookup (dominantDimension q.Dimensions).2
            (fanOutTags q.Dimensions (dominantDimension q.Dimensions).2 value)
          = some value ∧
        ∀ k vs, (k, vs) ∈ q.Dimensions → k ≠ (dominantDimension q.Dimensions).2 →
          vs ≠ [] →
          alookup k (fanOutTags q.Dimensions (dominantDimension q.Dimensions).2 value)
            = some (vs.headD "")) := by
  obtain ⟨frames, hloop, hfields, htags⟩ :=
    fanOutLoop_map q label (dominantDimension q.Dimensions).2 hOK
      ((alookup (dominantDimension q.Dimensions).2 q.Dimensions).getD [])
  refine ⟨frames, ?_, hfields, htags, dominantDimension_max q.Dimensions hnd, ?_⟩
  · rw [labelFrames, if_pos ⟨by rw [hval]; rfl, hmv⟩, fanOutFrames]
    exact hloop
  · intro value _
    refine ⟨fanOutTags_mvd _ _ _, ?_⟩
    intro k vs hmem hk hvs
    exact fanOutTags_other q.Dimensions [((dominantDimension q.Dimensions).2, value)]
      (dominantDimension q.Dimensions).2 value k vs hnd hmem hk hvs

/-- The zero-values fragment of the C7 counterexample. -/
def c7frag : MetricDataResult :=
  { Id := "q1", Label := "l1", Timestamps := [], Values := [],
    StatusCode := "Complete", Messages := [] }

/-- The C7 counterexample query: dominant dimension `dim1` with three
candidates, plus a second dimension `dim2` with two candidates. -/
def c7q : CloudWatchQuery :=
  { plainQuery with
    isMultiValuedDimensionExpression := true
    Dimensions := [("dim1", ["a", "b", "c"]), ("dim2", ["u", "v"])] }

/-- Claim C7 counterexample.  The claim says only dimensions with exactly
one candidate are included in the synthesized frames' tags besides the
dominant dimension.  Here `dim2` has two candidates, yet every one of the
three synthesized empty frames carries the tag `dim2 = "u"` (its first
candidate): the source includes every other dimension with
`len(values) > 0`, not exactly one. -/
theorem c7_counterexample :
    (alookup "dim2" c7q.Dimensions).getD [] = ["u", "v"] ∧
    (parseGetMetricDataTimeSeries [("l1", c7frag)] c7q).map
        (fun p => p.1.map (fun f => (f.fields, alookup "dim2" f.tags)))
      = .ok [(none, some "u"), (none, some "u"), (none, some "u")] :=
  ⟨rfl, by rfl⟩

/-- Witness for C7 at the concrete counterexample query. -/
theorem c7_amended_witness :
    ∃ frames, labelFrames c7q "l1" c7frag = .ok frames ∧
      frames.map Frame.fields
        = ((alookup (dominantDimension c7q.Dimensions).2 c7q.Dimensions).getD []).map
            (fun _ => none) ∧
      frames.map Frame.tags
        = ((alookup (dominantDimension c7q.Dimensions).2 c7q.Dimensions).getD []).map
            (fanOutTags c7q.Dimensions (dominantDimension c7q.Dimensions).2) ∧
      (∀ p ∈ c7q.Dimensions,
        p.2.length
          ≤ ((alookup (dominantDimension c7q.Dimensions).2 c7q.Dimensions).getD
              []).length) ∧
      (∀ value ∈ (alookup (dominantDimension c7q.Dimensions).2 c7q.Dimensions).getD [],
        alookup (dominantDimension c7q.Dimensions).2
            (fanOutTags c7q.Dimensions (dominantDimension c7q.Dimensions).2 value)
          = some value ∧
        ∀ k vs, (k, vs) ∈ c7q.Dimensions → k ≠ (dominantDimension c7q.Dimensions).2 →
          vs ≠ [] →
          alookup k (fanOutTags c7q.Dimensions (dominantDimension c7q.Dimensions).2 value)
            = some (vs.headD "")) :=
  c7_amended c7q "l1" c7frag rfl rfl (fun h => absurd h (by decide)) (by decide)

/-! ### Claim C8: alias template evaluation -/

/-- The C8 scenario query: alias template of a metric token and a stat
token joined by an underscore, metric name `"test"`. -/
def c8q : CloudWatchQuery :=
  { plainQuery with Alias := "\x7b\x7bmetric\x7d\x7d_\x7b\x7bstat\x7d\x7d" }

/-- Claim C8 (confirmed).  When neither empty-alias shortcut applies, the
frame name is the alias template with every double-brace token occurrence
replaced by the context value (region, namespace, metric, stat, period,
label when non-empty, and the resolved dimension tags) whenever the
trimmed token name is present in the context — unknown placeholders left
unchanged, as `replaceTokens` does — and the empty result falls back to
the metric name, an underscore and the stat (first conjunct); the
template of metric and stat tokens with metricName `"test"` and stat
`"stat1"` yields `"test_stat1"` (second conjunct). -/
theorem c8_alias_formatting :
    (∀ (q : CloudWatchQuery) (stat : String) (dims : List (String × String))
        (label : String) (stat' period' : String),
      ¬(q.Alias.length = 0 ∧ q.isMathExpression = true) →
      ¬(q.Alias.length = 0 ∧ q.isInferredSearchExpression = true ∧
          q.isMultiValuedDimensionExpression = false) →
      resolvedStatPeriod q stat = some (stat', period') →
      formatAlias q stat dims label =
        some (if replaceTokens (aliasData q stat' period' label dims) q.Alias = ""
              then q.MetricName ++ "_" ++ stat'
              else replaceTokens (aliasData q stat' period' label dims) q.Alias)) ∧
    formatAlias c8q "stat1" [] "" = some "test_stat1" := by
  constructor
  · intro q stat dims label stat' period' h1 h2 hsp
    simp only [formatAlias, hsp]
    rw [if_neg h1, if_neg (fun hh => h2 ⟨hh.1, hh.2.1, by simpa using hh.2.2⟩)]
    by_cases hres : replaceTokens (aliasData q stat' period' label dims) q.Alias = ""
    · simp [hres]
    · simp [hres]
  · rfl

/-- Witness for C8: the general conjunct applied at the scenario query. -/
theorem c8_alias_formatting_witness :
    formatAlias c8q "stat1" [] "" =
      some (if replaceTokens (aliasData c8q "stat1" (toString c8q.Period) "" []) c8q.Alias
              = ""
            then c8q.MetricName ++ "_" ++ "stat1"
            else replaceTokens (aliasData c8q "stat1" (toString c8q.Period) "" [])
              c8q.Alias) ∧
    replaceTokens (aliasData c8q "stat1" (toString c8q.Period) "" []) c8q.Alias
      = "test_stat1" :=
  ⟨c8_alias_formatting.1 c8q "stat1" [] "" "stat1" (toString c8q.Period)
    (by decide) (by decide) rfl, by rfl⟩

/-! ### Claim C1: the ArithmeticError abort -/

/-- Well-formedness of one merged result for the formatter: parallel
timestamps and values, and no null value pointers (so neither the index
`Values[j]` nor the debug-log dereference `*val` panics). -/
def wfResult (r : MetricDataResult) : Prop :=
  r.Values.length = r.Timestamps.length ∧ ∀ v ∈ r.Values, v ≠ none

theorem firstArithmeticError_eq_none (refId : String) :
    ∀ (msgs : List Message), firstArithmeticError refId msgs = none →
      ∀ msg ∈ msgs, msg.Code ≠ "ArithmeticError"
  | [], _, msg, hmem => by simp at hmem
  | m :: msgs, h, msg, hmem => by
    by_cases hc : m.Code = "ArithmeticError"
    · rw [firstArithmeticError, if_pos hc] at h
      exact absurd h (by simp)
    · rw [firstArithmeticError, if_neg hc] at h
      rcases List.mem_cons.1 hmem with hmem | hmem
      · subst hmem
        exact hc
      · exact firstArithmeticError_eq_none refId msgs h msg hmem

theorem firstArithmeticError_eq_some (refId : String) :
    ∀ (msgs : List Message) (e : ParseError), firstArithmeticError refId msgs = some e →
      ∃ msg ∈ msgs, msg.Code = "ArithmeticError" ∧ e = .arithmeticError refId msg.Value
  | [], e, h => by simp [firstArithmeticError] at h
  | m :: msgs, e, h => by
    by_cases hc : m.Code = "ArithmeticError"
    · rw [firstArithmeticError, if_pos hc] at h
      exact ⟨m, List.mem_cons_self _ _, hc, by simpa using h.symm⟩
    · rw [firstArithmeticError, if_neg hc] at h
      obtain ⟨msg, hmem, hcode, he⟩ := firstArithmeticError_eq_some refId msgs e h
      exact ⟨msg, List.mem_cons_of_mem _ hmem, hcode, he⟩

theorem gapFillLoop_ok_of_wf (period : Int) :
    ∀ (ts : List Int) (vals : List (Option Int)) (prev : Option Int),
      vals.length = ts.length → (∀ v ∈ vals, v ≠ none) →
      ∃ out, gapFillLoop period prev ts vals = .ok out
  | [], vals, prev, _, _ => ⟨([], []), rfl⟩
  | t :: ts, [], prev, h, _ => by simp at h
  | t :: ts, v :: vals, prev, h, hnn => by
    rcases hv : v with _ | x
    · have hne := hnn v (List.mem_cons_self _ _)
      rw [hv] at hne
      exact absurd rfl hne
    · subst hv
      obtain ⟨out, hout⟩ := gapFillLoop_ok_of_wf period ts vals (some t)
        (by simpa using h) (fun w hw => hnn w (List.mem_cons_of_mem _ hw))
      obtain ⟨o1, o2⟩ := out
      rcases prev with _ | p
      · exact ⟨_, by simp only [gapFillLoop, hout]; rfl⟩
      · by_cases hlt : p + period < t
        · exact ⟨_, by simp only [gapFillLoop, hout, if_pos hlt]; rfl⟩
        · exact ⟨_, by simp only [gapFillLoop, hout, if_neg hlt]; rfl⟩

theorem labelFrames_ok (q : CloudWatchQuery) (label : String) (r : MetricDataResult)
    (hOK : aliasCommaOK q) (hwf : wfResult r) :
    ∃ fs, labelFrames q label r = .ok fs := by
  rw [labelFrames]
  by_cases hcond : r.Values.length = 0 ∧ q.isMultiValuedDimensionExpression = true
  · rw [if_pos hcond, fanOutFrames]
    obtain ⟨frames, hf, _, _⟩ := fanOutLoop_map q label (dominantDimension q.Dimensions).2
      hOK ((alookup (dominantDimension q.Dimensions).2 q.Dimensions).getD [])
    exact ⟨frames, hf⟩
  · rw [if_neg hcond]
    obtain ⟨out, hout⟩ := gapFillLoop_ok_of_wf q.Period r.Timestamps r.Values none
      hwf.1 hwf.2
    obtain ⟨nm, hnm⟩ := formatAlias_isSome q q.Stats (buildTags q label) label hOK
    obtain ⟨o1, o2⟩ := out
    exact ⟨_, by simp only [gapFill, hout, hnm]; rfl⟩

theorem formatLoop_arith (m : List (String × MetricDataResult)) (q : CloudWatchQuery)
    (hOK : aliasCommaOK q) :
    ∀ (ls : List String) (pd : Bool),
      (∀ l ∈ ls, ∃ r, alookup l m = some r ∧ wfResult r) →
      (∃ l ∈ ls, ∃ r, alookup l m = some r ∧
        ∃ msg ∈ r.Messages, msg.Code = "ArithmeticError") →
      ∃ v, formatLoop m q ls pd = .error (.arithmeticError q.RefId v) ∧
        ∃ l r, alookup l m = some r ∧
          ∃ msg ∈ r.Messages, msg.Code = "ArithmeticError" ∧ msg.Value = v
  | [], _, _, hex => by simp at hex
  | l :: ls, pd, hsub, hex => by
    obtain ⟨r, hr, hwfr⟩ := hsub l (List.mem_cons_self _ _)
    rcases ha : firstArithmeticError q.RefId r.Messages with _ | e
    · have hnoar := firstArithmeticError_eq_none q.RefId r.Messages ha
      have hex' : ∃ l' ∈ ls, ∃ r', alookup l' m = some r' ∧
          ∃ msg ∈ r'.Messages, msg.Code = "ArithmeticError" := by
        obtain ⟨l', hl', r', hr', msg, hmsg, hcode⟩ := hex
        rcases List.mem_cons.1 hl' with hl' | hl'
        · subst hl'
          rw [hr] at hr'
          cases hr'
          exact absurd hcode (hnoar msg hmsg)
        · exact ⟨l', hl', r', hr', msg, hmsg, hcode⟩
      obtain ⟨fs, hfs⟩ := labelFrames_ok q l r hOK hwfr
      obtain ⟨v, hloop, hsrc⟩ := formatLoop_arith m q hOK ls
        (pd || !(r.StatusCode == "Complete"))
        (fun l' hl' => hsub l' (List.mem_cons_of_mem _ hl')) hex'
      refine ⟨v, ?_, hsrc⟩
      simp only [formatLoop, hr, ha, hfs, hloop]
    · obtain ⟨msg, hmem, hcode, he⟩ := firstArithmeticError_eq_some q.RefId r.Messages e ha
      refine ⟨msg.Value, ?_, l, r, hr, msg, hmem, hcode, rfl⟩
      simp only [formatLoop, hr, ha, he]

theorem parse_ok_no_arith (m : List (String × MetricDataResult)) (q : CloudWatchQuery) :
    ∀ (ls : List String) (pd : Bool) (out : List Frame × Bool),
      formatLoop m q ls pd = .ok out →
      ∀ l ∈ ls, ∀ r, alookup l m = some r →
        ∀ msg ∈ r.Messages, msg.Code ≠ "ArithmeticError"
  | [], _, _, _, l, hl, _, _, _, _ => by simp at hl
  | l' :: ls, pd, out, h, l, hl, r, hr, msg, hmem => by
    rcases hl'' : alookup l' m with _ | r'
    · simp only [formatLoop, hl''] at h
      exact absurd h (by simp)
    · simp only [formatLoop, hl''] at h
      rcases ha : firstArithmeticError q.RefId r'.Messages with _ | e
      · simp only [ha] at h
        rcases hf : labelFrames q l' r' with e' | fs
        · simp only [hf] at h
          exact absurd h (by simp)
        · simp only [hf] at h
          rcases hrest : formatLoop m q ls (pd || !(r'.StatusCode == "Complete"))
              with e'' | p
          · simp only [hrest] at h
            exact absurd h (by simp)
          · rcases List.mem_cons.1 hl with hleq | hlmem
            · subst hleq
              rw [hr] at hl''
              cases hl''
              exact firstArithmeticError_eq_none q.RefId r.Messages ha msg hmem
            · exact parse_ok_no_arith m q ls _ p hrest l hlmem r hr msg hmem
      · simp only [ha] at h
        exact absurd h (by simp)

/-- Nodup-keys well-formedness of the merged map and all its inner label
maps; the merge loop maintains it. -/
def MdrWF (mdr : Mdr) : Prop :=
  (keysOf mdr).Nodup ∧ ∀ p ∈ mdr, (keysOf p.2).Nodup

theorem mem_aset {α : Type} {p : String × α} {k : String} {v : α} :
    ∀ {m : List (String × α)}, p ∈ aset k v m → p = (k, v) ∨ p ∈ m
  | [], h => by simpa [aset] using h
  | q :: t, h => by
    obtain ⟨qk, qv⟩ := q
    by_cases hk : k = qk
    · subst hk
      rcases List.mem_cons.1 (by simpa [aset] using h) with h | h
      · exact Or.inl h
      · exact Or.inr (List.mem_cons_of_mem _ h)
    · rcases List.mem_cons.1 (by simpa [aset, hk] using h) with h | h
      · exact Or.inr (h ▸ List.mem_cons_self _ _)
      · rcases mem_aset h with h | h
        · exact Or.inl h
        · exact Or.inr (List.mem_cons_of_mem _ h)

theorem mdrInsert_wf {mdr : Mdr} {r : MetricDataResult} (h : MdrWF mdr) :
    MdrWF (mdrInsert mdr r) := by
  rcases ho : alookup r.Id mdr with _ | inner
  · simp only [mdrInsert, ho]
    refine ⟨nodup_keysOf_aset _ h.1, ?_⟩
    intro p hp
    rcases mem_aset hp with hp | hp
    · subst hp
      simp [keysOf]
    · exact h.2 p hp
  · have hinner : (keysOf inner).Nodup := h.2 _ (mem_of_alookup_eq_some ho)
    rcases hi : alookup r.Label inner with _ | existing
    · simp only [mdrInsert, ho, hi]
      refine ⟨nodup_keysOf_aset _ h.1, ?_⟩
      intro p hp
      rcases mem_aset hp with hp | hp
      · subst hp
        exact nodup_keysOf_aset _ hinner
      · exact h.2 p hp
    · simp only [mdrInsert, ho, hi]
      refine ⟨nodup_keysOf_aset _ h.1, ?_⟩
      intro p hp
      rcases mem_aset hp with hp | hp
      · subst hp
        exact nodup_keysOf_aset _ hinner
      · exact h.2 p hp

theorem foldl_mdrInsert_wf :
    ∀ (frags : List MetricDataResult) {mdr : Mdr}, MdrWF mdr →
      MdrWF (frags.foldl mdrInsert mdr)
  | [], _, h => h
  | r :: frags, mdr, h => foldl_mdrInsert_wf frags (mdrInsert_wf h)

theorem buildResponses_ok_no_arith (queries : Queries) :
    ∀ (entries : List (String × List (String × MetricDataResult)))
      (rs : List CloudwatchResponse),
      (∀ p ∈ entries, (keysOf p.2).Nodup) →
      buildResponses queries entries = .ok rs →
      ∀ p ∈ entries, ∀ e ∈ p.2, ∀ msg ∈ e.2.Messages, msg.Code ≠ "ArithmeticError"
  | [], _, _, _, p, hp, _, _, _, _ => by simp at hp
  | (id, lr) :: entries, rs, hnd, h, p, hp, e, he, msg, hmem => by
    rcases hq : alookup id queries with _ | q
    · simp only [buildResponses, hq] at h
      exact absurd h (by simp)
    · simp only [buildResponses, hq] at h
      rcases hpr : parseGetMetricDataTimeSeries lr q with e' | out
      · simp only [hpr] at h
        exact absurd h (by simp)
      · simp only [hpr] at h
        rcases hrest : buildResponses queries entries with e'' | rs'
        · simp only [hrest] at h
          exact absurd h (by simp)
        · rcases List.mem_cons.1 hp with hpeq | hpmem
          · subst hpeq
            obtain ⟨fr, pd⟩ := out
            have hsorted : e.1 ∈ metricDataResultLabels lr := by
              rw [metricDataResultLabels, List.mem_insertionSort]
              exact mem_keysOf_of_mem he
            have hal : alookup e.1 lr = some e.2 :=
              alookup_eq_some_of_mem (hnd _ (List.mem_cons_self _ _)) (by simpa using he)
            exact parse_ok_no_arith lr q (metricDataResultLabels lr) false (fr, pd)
              hpr e.1 hsorted e.2 hal msg hmem
          · exact buildResponses_ok_no_arith queries entries rs'
              (fun p' hp' => hnd p' (List.mem_cons_of_mem _ hp')) hrest
              p hpmem e he msg hmem

/-- Claim C1 (corrected).  First conjunct: if any message attached to a
merged result of query Q has code `"ArithmeticError"`, formatting of Q
aborts with the explicit error carrying Q's refId and the text of such a
message.  Second conjunct: the error is not contained to Q — whenever
`parseResponse` returns a response list at all, no merged result of any
query carried an `"ArithmeticError"` message; contrapositively, one
query's ArithmeticError makes the whole call return an error, so sibling
queries in the same request get no response records either. -/
theorem c1_amended :
    (∀ (m : List (String × MetricDataResult)) (q : CloudWatchQuery),
      (keysOf m).Nodup → (∀ p ∈ m, wfResult p.2) → aliasCommaOK q →
      (∃ p ∈ m, ∃ msg ∈ p.2.Messages, msg.Code = "ArithmeticError") →
      ∃ v, parseGetMetricDataTimeSeries m q = .error (.arithmeticError q.RefId v) ∧
        ∃ p ∈ m, ∃ msg ∈ p.2.Messages, msg.Code = "ArithmeticError" ∧ msg.Value = v) ∧
    (∀ (mdos : List GetMetricDataOutput) (queries : Queries)
        (rs : List CloudwatchResponse),
      parseResponse mdos queries = .ok rs →
      ∀ st, mergePhase mdos ([], queries) = .ok st →
        ∀ p ∈ st.1, ∀ e ∈ p.2, ∀ msg ∈ e.2.Messages, msg.Code ≠ "ArithmeticError") := by
  constructor
  · intro m q hnd hwf hOK hex
    have hsub : ∀ l ∈ metricDataResultLabels m, ∃ r, alookup l m = some r ∧ wfResult r := by
      intro l hl
      rw [metricDataResultLabels, List.mem_insertionSort] at hl
      rcases hal : alookup l m with _ | r
      · exact absurd ((alookup_eq_none_iff l m).1 hal) (by simpa using hl)
      · exact ⟨r, rfl, hwf _ (mem_of_alookup_eq_some hal)⟩
    have hex' : ∃ l ∈ metricDataResultLabels m, ∃ r, alookup l m = some r ∧
        ∃ msg ∈ r.Messages, msg.Code = "ArithmeticError" := by
      obtain ⟨p, hp, msg, hmsg, hcode⟩ := hex
      refine ⟨p.1, ?_, p.2, alookup_eq_some_of_mem hnd (by simpa using hp),
        msg, hmsg, hcode⟩
      rw [metricDataResultLabels, List.mem_insertionSort]
      exact mem_keysOf_of_mem hp
    obtain ⟨v, hloop, l, r, hal, msg, hmem, hcode, hval⟩ :=
      formatLoop_arith m q hOK (metricDataResultLabels m) false hsub hex'
    exact ⟨v, hloop, (l, r), mem_of_alookup_eq_some hal, msg, hmem, hcode, hval⟩
  · intro mdos queries rs hok st hst
    rcases hmp : mergePhase mdos ([], queries) with e | st0
    · rw [hmp] at hst
      exact absurd hst (by simp)
    · rw [hmp] at hst
      have hst0 : st = st0 := by
        cases hst
        rfl
      subst hst0
      rw [parseResponse, hmp] at hok
      have hwfmdr : MdrWF st.1 := by
        rw [mergePhase_mdr hmp]
        exact foldl_mdrInsert_wf (fragmentsOf mdos) ⟨List.nodup_nil, by simp⟩
      exact buildResponses_ok_no_arith st.2 st.1 rs (fun p hp => hwfmdr.2 p hp) hok

/-- The C1 fragment of query q1 carrying a fatal `"ArithmeticError"`
message. -/
def c1fragErr : MetricDataResult :=
  { Id := "q1", Label := "l1", Timestamps := [], Values := [],
    StatusCode := "Complete",
    Messages := [{ Code := "ArithmeticError", Value := "divide by zero" }] }

/-- The healthy C1 fragment of sibling query q2. -/
def c1fragOk : MetricDataResult :=
  { Id := "q2", Label := "l2", Timestamps := [0], Values := [some 5],
    StatusCode := "Complete", Messages := [] }

/-- The C1 batch: q1's fragment has an ArithmeticError, q2's is healthy. -/
def c1mdos : List GetMetricDataOutput :=
  [{ Messages := [], MetricDataResults := [c1fragErr, c1fragOk] }]

/-- The sibling query of the C1 counterexample. -/
def c1q2 : CloudWatchQuery :=
  { plainQuery with RefId := "B", Id := "q2", Alias := "y" }

/-- The C1 queries map: q1 and its healthy sibling q2. -/
def c1queries : Queries :=
  [("q1", plainQuery), ("q2", c1q2)]

/-- Claim C1 counterexample.  The claim says q1's ArithmeticError does not
affect sibling q2, which still produces its response record.  In fact the
whole `parseResponse` call returns the error and NO response records at
all — q2's record is lost (third conjunct shows q2 alone would have
produced exactly one record). -/
theorem c1_counterexample :
    (fragmentsOf c1mdos).map (fun r => r.Id) = ["q1", "q2"] ∧
    parseResponse c1mdos c1queries = .error (.arithmeticError "A" "divide by zero") ∧
    ∃ rs, parseResponse [{ Messages := [], MetricDataResults := [c1fragOk] }]
        [("q2", c1q2)] = .ok rs ∧ rs.length = 1 :=
  ⟨rfl, by rfl, ⟨_, rfl, rfl⟩⟩

/-- The merged map of the C1 witness. -/
def c1m : List (String × MetricDataResult) := [("l1", c1fragErr)]

/-- Witness for C1's first conjunct at a concrete merged map. -/
theorem c1_amended_witness :
    ∃ v, parseGetMetricDataTimeSeries c1m plainQuery
        = .error (.arithmeticError plainQuery.RefId v) ∧
      ∃ p ∈ c1m, ∃ msg ∈ p.2.Messages, msg.Code = "ArithmeticError" ∧ msg.Value = v :=
  c1_amended.1 c1m plainQuery (by decide)
    (by
      intro p hp
      have hp' := List.mem_singleton.1 hp
      subst hp'
      exact ⟨rfl, by decide⟩)
    (fun h => absurd h (by decide)) (by decide)

/-! ### Claim C9: sorted label order and batch-permutation invariance -/

theorem mdrLookup2_isSome_iff (frags : List MetricDataResult) (id label : String) :
    (mdrLookup2 id label (mdrOf frags)).isSome
      ↔ ∃ r ∈ frags, r.Id = id ∧ r.Label = label := by
  rw [show mdrOf frags = frags.foldl mdrInsert [] from rfl,
    foldl_mdrInsert_lookup2 frags [] id label,
    show mdrLookup2 id label ([] : Mdr) = none from rfl]
  rcases hfil : frags.filter (fun r => r.Id == id && r.Label == label) with _ | ⟨f, fs⟩
  · rw [hfil]
    constructor
    · intro hh
      simp [combineFrags] at hh
    · rintro ⟨r, hr, hid, hlab⟩
      have hmem : r ∈ frags.filter (fun r => r.Id == id && r.Label == label) :=
        List.mem_filter.2 ⟨hr, by simp [hid, hlab]⟩
      rw [hfil] at hmem
      simp at hmem
  · obtain ⟨m, hm, _, _, _⟩ := combineFrags_some_spec fs f
    rw [hfil, show combineFrags none (f :: fs) = combineFrags (some f) fs from rfl, hm]
    simp only [Option.isSome_some, true_iff]
    have hf : f ∈ frags.filter (fun r => r.Id == id && r.Label == label) := by
      rw [hfil]
      exact List.mem_cons_self _ _
    have hff := List.mem_filter.1 hf
    refine ⟨f, hff.1, ?_, ?_⟩
    · have := hff.2
      simp at this
      exact this.1
    · have := hff.2
      simp at this
      exact this.2

theorem mem_inner_keys (frags : List MetricDataResult) (id label : String) :
    label ∈ keysOf ((alookup id (mdrOf frags)).getD [])
      ↔ (mdrLookup2 id label (mdrOf frags)).isSome := by
  rcases ho : alookup id (mdrOf frags) with _ | inner
  · simp [mdrLookup2, ho, keysOf]
  · simp only [mdrLookup2, ho, Option.getD_some, Option.bind_some]
    exact (alookup_isSome_iff label inner).symm

theorem inner_keys_nodup (frags : List MetricDataResult) (id : String) :
    (keysOf ((alookup id (mdrOf frags)).getD [])).Nodup := by
  rcases ho : alookup id (mdrOf frags) with _ | inner
  · simp [keysOf]
  · have hwf : MdrWF (mdrOf frags) :=
      foldl_mdrInsert_wf frags ⟨List.nodup_nil, by simp⟩
    exact hwf.2 _ (mem_of_alookup_eq_some ho)

/-- Claim C9 (corrected).  First conjunct: the formatter visits labels in
the lexicographically sorted order `metricDataResultLabels`
(definitionally its iteration list), which is `Sorted (· ≤ ·)`: frames
are emitted grouped by label in sorted label order.  Second conjunct:
this sorted label sequence for a query is invariant under any permutation
of the input batch order, so frame EMISSION ORDER is a deterministic
function of the label set.  The full outputs of merge-plus-format are NOT
identical under permutation (the counterexample shows the merged data
concatenates in arrival order), only the sorted label sequence is. -/
theorem c9_amended :
    (∀ (m : List (String × MetricDataResult)) (q : CloudWatchQuery),
      parseGetMetricDataTimeSeries m q = formatLoop m q (metricDataResultLabels m) false ∧
      List.Sorted (· ≤ ·) (metricDataResultLabels m)) ∧
    (∀ (bs bs' : List GetMetricDataOutput) (id : String), bs.Perm bs' →
      metricDataResultLabels ((alookup id (mdrOf (fragmentsOf bs))).getD [])
        = metricDataResultLabels ((alookup id (mdrOf (fragmentsOf bs'))).getD [])) := by
  constructor
  · intro m q
    exact ⟨rfl, List.sorted_insertionSort _ _⟩
  · intro bs bs' id hperm
    have hkeys : (keysOf ((alookup id (mdrOf (fragmentsOf bs))).getD [])).Perm
        (keysOf ((alookup id (mdrOf (fragmentsOf bs'))).getD [])) := by
      rw [List.perm_ext_iff_of_nodup (inner_keys_nodup _ _) (inner_keys_nodup _ _)]
      intro label
      rw [mem_inner_keys, mem_inner_keys, mdrLookup2_isSome_iff, mdrLookup2_isSome_iff]
      constructor
      · rintro ⟨r, hr, hrest⟩
        obtain ⟨mdo, hmdo, hrin⟩ := mem_fragmentsOf.1 hr
        exact ⟨r, mem_fragmentsOf.2 ⟨mdo, hperm.mem_iff.1 hmdo, hrin⟩, hrest⟩
      · rintro ⟨r, hr, hrest⟩
        obtain ⟨mdo, hmdo, hrin⟩ := mem_fragmentsOf.1 hr
        exact ⟨r, mem_fragmentsOf.2 ⟨mdo, hperm.mem_iff.2 hmdo, hrin⟩, hrest⟩
    exact List.eq_of_perm_of_sorted
      ((List.perm_insertionSort _ _).trans
        (hkeys.trans (List.perm_insertionSort _ _).symm))
      (List.sorted_insertionSort _ _) (List.sorted_insertionSort _ _)

/-- Claim C9 counterexample.  The two batches are a permutation of each
other, yet merge-plus-format yields different outputs: the merged
timestamp/value sequences concatenate in arrival order, so the full output
is not invariant under permuting the batch order. -/
theorem c9_counterexample :
    ([c4batch1, c4batch2].Perm [c4batch2, c4batch1]) ∧
    parseResponse [c4batch1, c4batch2] [("q1", plainQuery)]
      ≠ parseResponse [c4batch2, c4batch1] [("q1", plainQuery)] :=
  ⟨List.Perm.swap _ _ _,
   fun h => absurd (congrArg Except.toOption h) (by decide)⟩

/-- Witness for C9 at concrete inputs. -/
theorem c9_amended_witness :
    (parseGetMetricDataTimeSeries c5m plainQuery
        = formatLoop c5m plainQuery (metricDataResultLabels c5m) false ∧
      List.Sorted (· ≤ ·) (metricDataResultLabels c5m)) ∧
    metricDataResultLabels
        ((alookup "q1" (mdrOf (fragmentsOf [c4batch1, c4batch2]))).getD [])
      = metricDataResultLabels
          ((alookup "q1" (mdrOf (fragmentsOf [c4batch2, c4batch1]))).getD []) :=
  ⟨c9_amended.1 c5m plainQuery,
   c9_amended.2 [c4batch1, c4batch2] [c4batch2, c4batch1] "q1" (List.Perm.swap _ _ _)⟩

end CW
